import Mathlib

/-!
# natscli: cluster control operations and the account watcher

A shallow embedding of

* `cli/server_cluster_command.go`: `metaPeerRemoveAction` and
  `metaLeaderStandDownAction` (with its `getJSI` closure);
* `cli/server_watch_acct_command.go`: `handle`, `accountTotal` and `redraw`.

Calls into the client library and the operating system are made explicit: every
action takes an environment holding what those calls answer and returns, next
to its result, the calls it made in order.
-/

namespace NatsCli

/-! ## Data read from the cluster-state reply -/

/-- Modelled from the spec: `server.PeerInfo` is declared in nats-server, which
is not among the sources. A peer record carries the peer name, the peer
identifier and the offline flag; these are the three fields the code reads
(`r.Name`, `r.Peer`, `r.Offline`). -/
structure PeerInfo where
  Name : String
  Peer : String
  Offline : Bool
deriving DecidableEq, Repr

/-- Modelled from the spec: `server.MetaClusterInfo` is declared in nats-server.
The reply carries the current meta-group leader identity and the list of peer
replicas (`resp.Meta.Leader`, `srv.Data.Meta.Replicas`). -/
structure MetaClusterInfo where
  Leader : String
  Replicas : List PeerInfo
deriving DecidableEq, Repr

/-- Modelled from the spec: `server.JSInfo` is declared in nats-server; only its
`Meta` field is read by the code embedded here. -/
structure JSInfo where
  Meta : MetaClusterInfo
deriving DecidableEq, Repr

/-- The receiver of both cluster actions, `SrvClusterCmd`, with the fields the
two actions read. -/
structure SrvClusterCmd where
  json : Bool
  force : Bool
  peer : String
  placementCluster : String
deriving DecidableEq, Repr

/-- How an action ends: it returns (`nil` or an error), or the process exits
(`os.Exit`, `fisk.FatalIfError`). -/
inductive ActionResult where
  | returned (err : Option String)
  | exited (code : Nat)
deriving DecidableEq, Repr

/-- The calls an action makes on its collaborators, in the order it makes them. -/
inductive Call where
  | prepareHelper
  | doReq
  | askConfirmation (prompt : String)
  | metaPeerRemove (name : String) (id : String)
  | getJSI
  | metaLeaderStandDown (placement : Option String)
deriving DecidableEq, Repr

/-! ## `metaPeerRemoveAction` -/

/-- The three locals `found`, `foundName`, `foundID` of `metaPeerRemoveAction`. -/
structure Found where
  found : Bool
  foundName : String
  foundID : String
deriving DecidableEq, Repr

/-- The loop `for _, r := range srv.Data.Meta.Replicas` (lines 144-153): a
replica whose name or identifier is the target ends the action with an error
when it is not offline, and is recorded otherwise. -/
def findReplica (peer : String) : List PeerInfo → Found → Except String Found
  | [], st => .ok st
  | r :: rs, st =>
    if r.Name = peer ∨ r.Peer = peer then
      if !r.Offline then
        .error "can only remove offline nodes"
      else
        findReplica peer rs { found := true, foundName := r.Name, foundID := r.Peer }
    else
      findReplica peer rs st

/-- Lines 134-157: the locals start as `false`, `""`, `""`, the loop runs, and a
target that was never found is an error. On success the recorded pair
`(foundName, foundID)` is what the rest of the action uses. -/
def validatePeer (peer : String) (replicas : List PeerInfo) : Except String (String × String) :=
  match findReplica peer replicas { found := false, foundName := "", foundID := "" } with
  | .error e => .error e
  | .ok st =>
    if !st.found then
      .error ("did not find a replica named " ++ peer)
    else
      .ok (st.foundName, st.foundID)

/-- Go's `strings.Contains` on the characters of the two strings. -/
def stringsContains (s sub : String) : Bool :=
  s.data.tails.any (fun t => sub.data.isPrefixOf t)

/-- What the collaborators of `metaPeerRemoveAction` answer: `prepareHelper`,
`doReq` (the raw replies, each with the outcome of `json.Unmarshal` on it: the
replicas of `srv.Data.Meta`), the confirmation prompt and the remove-peer API. -/
structure PeerRemoveEnv where
  prepareHelper : Except String Unit
  doReq : Except String (List (Except String (List PeerInfo)))
  askConfirmation : String → Except String Bool
  metaPeerRemove : String → String → Except String Unit

/-- Lines 159-182 of `metaPeerRemoveAction`: the confirmation prompt unless
forced, then the remove-peer call. `calls` are the calls made so far. -/
def confirmAndRemove (c : SrvClusterCmd) (env : PeerRemoveEnv) (foundName foundID : String)
    (calls : List Call) : ActionResult × List Call :=
  let prompt :=
    if c.peer = foundName ∨ stringsContains foundName foundID = true then
      "Really remove peer " ++ foundName
    else
      "Really remove peer " ++ foundName ++ " with id " ++ foundID
  let remove (calls : List Call) : ActionResult × List Call :=
    let name := if foundID ≠ "" then "" else foundName
    let calls := calls ++ [Call.metaPeerRemove name foundID]
    match env.metaPeerRemove name foundID with
    | .error _ => (.exited 1, calls)
    | .ok _ => (.returned none, calls)
  if !c.force then
    let calls := calls ++ [Call.askConfirmation prompt]
    match env.askConfirmation prompt with
    | .error _ => (.exited 1, calls)
    | .ok false => (.exited 0, calls)
    | .ok true => remove calls
  else
    remove calls

/-- The action `metaPeerRemoveAction` (lines 114-183). -/
def metaPeerRemoveAction (c : SrvClusterCmd) (env : PeerRemoveEnv) : ActionResult × List Call :=
  match env.prepareHelper with
  | .error e => (.returned (some e), [Call.prepareHelper])
  | .ok _ =>
    match env.doReq with
    | .error e => (.returned (some e), [Call.prepareHelper, Call.doReq])
    | .ok res =>
      match res with
      | [raw] =>
        match raw with
        | .error e => (.returned (some e), [Call.prepareHelper, Call.doReq])
        | .ok replicas =>
          match validatePeer c.peer replicas with
          | .error e => (.returned (some e), [Call.prepareHelper, Call.doReq])
          | .ok (foundName, foundID) =>
            confirmAndRemove c env foundName foundID [Call.prepareHelper, Call.doReq]
      | _ =>
        (.returned (some ("did not receive a response from the meta leader, ensure the account " ++
            "used has system privileges and appropriate permissions")),
          [Call.prepareHelper, Call.doReq])

/-- A call of the remove-peer API. -/
def Call.isRemove : Call → Bool
  | .metaPeerRemove _ _ => true
  | _ => false

/-- A replica matches the target by name or by identifier. -/
def PeerInfo.matchesTarget (r : PeerInfo) (peer : String) : Prop :=
  r.Name = peer ∨ r.Peer = peer

instance (r : PeerInfo) (peer : String) : Decidable (r.matchesTarget peer) := by
  unfold PeerInfo.matchesTarget; infer_instance

/-! ## `metaLeaderStandDownAction` -/

/-- One request/reply round trip as the closure `getJSI` sees it (lines
196-228): the request fails, the reply is not a JSON object, the object has no
`data` key, `data` does not decode to a `JSInfo`, or it does. -/
inductive Reply where
  | requestFailed (err : String)
  | undecodable (err : String)
  | noData
  | undecodableData (err : String)
  | info (i : JSInfo)
deriving DecidableEq, Repr

/-- The closure `getJSI` (lines 196-228) on the reply its request receives. -/
def getJSI : Reply → Except String JSInfo
  | .requestFailed e => .error e
  | .undecodable e => .error e
  | .noData => .error "no data received"
  | .undecodableData e => .error e
  | .info i => .ok i

/-- The period of the ticker of line 253, in milliseconds. -/
def pollIntervalMs : Nat := 500

/-- How the poll loop of lines 251-269 ends, with the number of `getJSI` calls
it made and the time since `start` (line 252) in milliseconds, every poll taken
as instantaneous. -/
structure PollRun where
  result : ActionResult
  polls : Nat
  elapsedMs : Nat
deriving DecidableEq, Repr

/-- The loop `for range time.NewTicker(500 * time.Millisecond).C` (lines
253-269). `ticks` is the number of ticks the loop is given to receive; `none`
means it is still waiting for the next tick. The ticker delivers its first tick
one period after it is created, and one more every period. `replies 0` answers
the next poll, `replies 1` the one after, and so on. `ctr`, `polls` and
`elapsedMs` are the counter of line 251, the polls made and the time elapsed
when the loop waits for its next tick. -/
def pollLoop (leader : String) :
    (ticks : Nat) → (replies : Nat → Reply) → (ctr polls elapsedMs : Nat) → Option PollRun
  | 0, _, _, _, _ => none
  | ticks + 1, replies, ctr, polls, elapsedMs =>
    let elapsedMs := elapsedMs + pollIntervalMs
    if ctr = 5 then
      some { result := .returned (some "stream did not elect a new leader in time"),
             polls := polls, elapsedMs := elapsedMs }
    else
      let ctr := ctr + 1
      match getJSI (replies 0) with
      | .error _ => pollLoop leader ticks (fun n => replies (n + 1)) ctr (polls + 1) elapsedMs
      | .ok resp =>
        if resp.Meta.Leader ≠ leader then
          some { result := .exited 0, polls := polls + 1, elapsedMs := elapsedMs }
        else
          pollLoop leader ticks (fun n => replies (n + 1)) ctr (polls + 1) elapsedMs

/-- What the collaborators of `metaLeaderStandDownAction` answer: `prepareHelper`,
`json.MarshalIndent` of the request, the reply to the initial cluster-state
read, the stand-down API, and the replies to the polls of the loop (`polls 0`
to the first poll). -/
structure StandDownEnv where
  prepareHelper : Except String Unit
  marshal : Except String Unit
  initial : Reply
  metaLeaderStandDown : Option String → Except String Unit
  polls : Nat → Reply

/-- What a run of `metaLeaderStandDownAction` did: its result, the calls made in
order, and the time between `start` and the end of the poll loop. -/
structure StandDownRun where
  result : ActionResult
  calls : List Call
  elapsedMs : Nat
deriving DecidableEq, Repr

/-- The action `metaLeaderStandDownAction` (lines 185-277), given `ticks` ticks
of its ticker; `none` means the action is still waiting for a tick. The code
after the loop (lines 271-276) is never reached: the ticker's channel is never
closed. -/
def metaLeaderStandDownAction (c : SrvClusterCmd) (env : StandDownEnv) (ticks : Nat) :
    Option StandDownRun :=
  match env.prepareHelper with
  | .error e => some { result := .returned (some e), calls := [Call.prepareHelper], elapsedMs := 0 }
  | .ok _ =>
    match env.marshal with
    | .error e =>
      some { result := .returned (some ("could not encode request: " ++ e)),
             calls := [Call.prepareHelper], elapsedMs := 0 }
    | .ok _ =>
      match getJSI env.initial with
      | .error e =>
        some { result := .returned (some ("could not obtain cluster information: " ++ e)),
               calls := [Call.prepareHelper, Call.getJSI], elapsedMs := 0 }
      | .ok resp =>
        if resp.Meta.Leader = "" then
          some { result := .returned (some "cluster has no current leader"),
                 calls := [Call.prepareHelper, Call.getJSI], elapsedMs := 0 }
        else
          let leader := resp.Meta.Leader
          let placement := if c.placementCluster ≠ "" then some c.placementCluster else none
          let calls := [Call.prepareHelper, Call.getJSI, Call.metaLeaderStandDown placement]
          match env.metaLeaderStandDown placement with
          | .error e => some { result := .returned (some e), calls := calls, elapsedMs := 0 }
          | .ok _ =>
            match pollLoop leader ticks env.polls 0 0 0 with
            | none => none
            | some run =>
              some { result := run.result,
                     calls := calls ++ List.replicate run.polls Call.getJSI,
                     elapsedMs := run.elapsedMs }

/-- A poll reports the leader `l`: its request succeeds and the decoded
cluster state names `l` as the meta leader. -/
def Reply.reportsLeader (r : Reply) (l : String) : Prop :=
  match getJSI r with
  | .ok i => i.Meta.Leader = l
  | .error _ => False

/-- A poll reports a leader other than `leader`: its request succeeds and the
decoded cluster state names another meta leader. -/
def Reply.reportsNewLeader (r : Reply) (leader : String) : Prop :=
  match getJSI r with
  | .ok i => i.Meta.Leader ≠ leader
  | .error _ => False

/-- A poll fails: `getJSI` returns an error. -/
def Reply.fails (r : Reply) : Prop :=
  match getJSI r with
  | .ok _ => False
  | .error _ => True

instance (r : Reply) (l : String) : Decidable (r.reportsLeader l) := by
  unfold Reply.reportsLeader; split <;> infer_instance

instance (r : Reply) (l : String) : Decidable (r.reportsNewLeader l) := by
  unfold Reply.reportsNewLeader; split <;> infer_instance

instance (r : Reply) : Decidable r.fails := by
  unfold Reply.fails; split <;> infer_instance

/-- A reply with which a poll fails, told by what came back and not by what
`getJSI` makes of it: the request itself failed (transport error), the reply
is not a JSON object, it has no `data` key, or its `data` does not decode. -/
def Reply.isFailure : Reply → Prop
  | .requestFailed _ => True
  | .undecodable _ => True
  | .noData => True
  | .undecodableData _ => True
  | .info _ => False

instance (r : Reply) : Decidable r.isFailure := by
  cases r <;> unfold Reply.isFailure <;> infer_instance

/-- The error the poll loop returns when its budget is spent (line 255). -/
def timedOut : ActionResult :=
  .returned (some "stream did not elect a new leader in time")

/-- The environment reaches the poll loop with the pre-operation leader
`leader`: the helper and the encoding of the request succeed, the initial read
reports the non-empty leader `leader`, and the stand-down command is accepted. -/
def StandDownEnv.startsPolling (env : StandDownEnv) (c : SrvClusterCmd) (leader : String) : Prop :=
  env.prepareHelper = .ok () ∧ env.marshal = .ok () ∧ env.initial.reportsLeader leader ∧
  leader ≠ "" ∧
  env.metaLeaderStandDown (if c.placementCluster ≠ "" then some c.placementCluster else none) =
    .ok ()

/-- The calls made before the poll loop is entered. -/
def callsBeforePolling (c : SrvClusterCmd) : List Call :=
  [Call.prepareHelper, Call.getJSI,
   Call.metaLeaderStandDown (if c.placementCluster ≠ "" then some c.placementCluster else none)]

/-! ## The account watcher: data -/

/-- Modelled from the spec: `server.DataStats` is declared in nats-server, which
is not among the sources; the spec gives messages and bytes as numeric counters
without a width, so they are integers here. -/
structure DataStats where
  Msgs : Int
  Bytes : Int
deriving DecidableEq, Repr

/-- Modelled from the spec: `server.AccountStat` is declared in nats-server. The
fields are the account identifier and the numeric counters that `accountTotal`
sums; the spec gives the counters no width, so they are integers here and
`+=` is integer addition. -/
structure AccountStat where
  Account : String
  Conns : Int
  LeafNodes : Int
  TotalConns : Int
  NumSubs : Int
  Sent : DataStats
  Received : DataStats
  SlowConsumers : Int
deriving DecidableEq, Repr

/-- Modelled from the spec: `server.ServerInfo` is declared in nats-server; the
code reads the reporting server's identifier and its own timestamp. An instant
is a number of nanoseconds on one clock. -/
structure ServerInfo where
  ID : String
  Time : Int
deriving DecidableEq, Repr

/-- Modelled from the spec: `server.AccountNumConns` is declared in nats-server:
the reporting server together with the embedded `AccountStat`. -/
structure AccountNumConns extends AccountStat where
  Server : ServerInfo
deriving DecidableEq, Repr

/-- The zero value `server.AccountStat{}` of line 202. -/
def AccountStat.zero : AccountStat :=
  { Account := "", Conns := 0, LeafNodes := 0, TotalConns := 0, NumSubs := 0,
    Sent := { Msgs := 0, Bytes := 0 }, Received := { Msgs := 0, Bytes := 0 },
    SlowConsumers := 0 }

/-- `time.Second` in nanoseconds, the unit of `time.Duration`. -/
def second : Int := 1000000000

/-- The largest `time.Duration`. -/
def maxDuration : Int := 9223372036854775807

/-- The smallest `time.Duration`. -/
def minDuration : Int := -9223372036854775808

/-- `time.Since(t)` at the instant `now`: `now.Sub(t)`, which stops at the
largest and at the smallest duration. -/
def timeSince (now t : Int) : Int :=
  if now - t > maxDuration then maxDuration
  else if now - t < minDuration then minDuration
  else now - t

/-- A Go map with string keys, as the list of its entries; the order of the
list stands for the order in which `range` visits the entries. -/
abbrev GoMap (β : Type) := List (String × β)

/-- The lookup `m[k]` with its `ok` flag. -/
def mapGet {β : Type} : GoMap β → String → Option β
  | [], _ => none
  | (k', v) :: rest, k => if k' = k then some v else mapGet rest k

/-- The assignment `m[k] = v`: the entry of `k` is replaced, or added. -/
def mapSet {β : Type} : GoMap β → String → β → GoMap β
  | [], k, v => [(k, v)]
  | (k', v') :: rest, k, v => if k' = k then (k, v) :: rest else (k', v') :: mapSet rest k v

/-- The receiver `SrvWatchAccountCmd` without its mutex. -/
structure SrvWatchAccountCmd where
  topCount : Int
  sort : String
  accounts : GoMap (GoMap AccountNumConns)
  sortNames : GoMap String
  lastMsg : Int
deriving DecidableEq, Repr

/-- The `sortNames` of `configureServerWatchAccountCommand` (lines 45-53). -/
def sortNames : GoMap String :=
  [("conns", "Connections"), ("subs", "Subscriptions"), ("sentb", "Sent Bytes"),
   ("sentm", "Sent Messages"), ("recvb", "Received Bytes"), ("recvm", "Received Messages"),
   ("slow", "Slow Consumers")]

/-- The receiver as `configureServerWatchAccountCommand` creates it, with the
values of the `--sort` and `--number` flags. -/
def newWatchCmd (sort : String) (topCount : Int) : SrvWatchAccountCmd :=
  { topCount := topCount, sort := sort, accounts := [], sortNames := sortNames, lastMsg := 0 }

/-! ## `handle` -/

/-- The payload of a telemetry message, as `json.Unmarshal` of line 113 sees it:
it fails, or it yields a sample. -/
inductive Payload where
  | undecodable (err : String)
  | sample (conns : AccountNumConns)
deriving DecidableEq, Repr

/-- The subscription callback `handle` (lines 111-127) on a message received at
the instant `now`. -/
def handle (c : SrvWatchAccountCmd) (msg : Payload) (now : Int) : SrvWatchAccountCmd :=
  match msg with
  | .undecodable _ => c
  | .sample conns =>
    let accounts :=
      match mapGet c.accounts conns.Account with
      | some _ => c.accounts
      | none => mapSet c.accounts conns.Account []
    let inner := (mapGet accounts conns.Account).getD []
    { c with
      accounts := mapSet accounts conns.Account (mapSet inner conns.Server.ID conns),
      lastMsg := now }

/-- A sequence of messages, each with the instant it is received at, handled in
order. -/
def handleAll (c : SrvWatchAccountCmd) (msgs : List (Payload × Int)) : SrvWatchAccountCmd :=
  msgs.foldl (fun c m => handle c m.1 m.2) c

/-! ## `accountTotal` -/

/-- The body of the loop of `accountTotal` after the staleness test (lines
212-223). -/
def addStat (acct : String) (total : AccountStat) (stat : AccountNumConns) : AccountStat :=
  { Account := acct,
    TotalConns := total.TotalConns + stat.TotalConns,
    Conns := total.Conns + stat.Conns,
    LeafNodes := total.LeafNodes + stat.LeafNodes,
    NumSubs := total.NumSubs + stat.NumSubs,
    SlowConsumers := total.SlowConsumers + stat.SlowConsumers,
    Sent := { Bytes := total.Sent.Bytes + stat.Sent.Bytes, Msgs := total.Sent.Msgs + stat.Sent.Msgs },
    Received := { Msgs := total.Received.Msgs + stat.Received.Msgs,
                  Bytes := total.Received.Bytes + stat.Received.Bytes } }

/-- One turn of the loop `for _, stat := range stats` (lines 205-224) on the
pair `(servers, total)`. -/
def totalStep (now : Int) (acct : String) (acc : Nat × AccountStat)
    (entry : String × AccountNumConns) : Nat × AccountStat :=
  if timeSince now entry.2.Server.Time > 35 * second then acc
  else (acc.1 + 1, addStat acct acc.2 entry.2)

/-- The loop of `accountTotal` over the samples of one account, from
`servers = 0` and the zero `AccountStat`. -/
def sumStats (now : Int) (acct : String) (stats : GoMap AccountNumConns) : Nat × AccountStat :=
  stats.foldl (totalStep now acct) (0, AccountStat.zero)

/-- The method `accountTotal` (lines 196-227) at the instant `now`; `none` is the
nil pointer returned for an account that is not in the table. -/
def accountTotal (c : SrvWatchAccountCmd) (now : Int) (acct : String) :
    Nat × Option AccountStat :=
  match mapGet c.accounts acct with
  | none => (0, none)
  | some stats =>
    let r := sumStats now acct stats
    (r.1, some r.2)

/-! ## `redraw` -/

/-- Modelled from the spec: `sortMultiSort` is defined in `cli/util.go`, which is
not among the sources; its test `TestMultipleSort` and its callers are. It
orders by the first pair, larger first, and when the first pair is equal by the
second pair, which is what the four assertions of the test fix:
`(1,1,"b","a")` false, `(1,1,"a","b")` true, `(1,2,"a","b")` false and
`(2,1,"a","b")` true. -/
def sortMultiSort {α β : Type} [DecidableEq α] [LT α] [DecidableRel (fun a b : α => a < b)]
    [LT β] [DecidableRel (fun a b : β => a < b)] (i1 j1 : α) (i2 j2 : β) : Bool :=
  if i1 = j1 then decide (i2 < j2) else decide (j1 < i1)

/-- The comparison function of lines 142-162 on two aggregated accounts, for the
value `sort` of `c.sort`. -/
def accountLess (sort : String) (ai aj : AccountStat) : Bool :=
  if sort = "subs" then sortMultiSort ai.NumSubs aj.NumSubs ai.Conns aj.Conns
  else if sort = "slow" then sortMultiSort ai.SlowConsumers aj.SlowConsumers ai.Conns aj.Conns
  else if sort = "sentb" then sortMultiSort ai.Sent.Bytes aj.Sent.Bytes ai.Conns aj.Conns
  else if sort = "sentm" then sortMultiSort ai.Sent.Msgs aj.Sent.Msgs ai.Conns aj.Conns
  else if sort = "recvb" then sortMultiSort ai.Received.Bytes aj.Received.Bytes ai.Conns aj.Conns
  else if sort = "recvm" then sortMultiSort ai.Received.Msgs aj.Received.Msgs ai.Conns aj.Conns
  else sortMultiSort ai.Conns aj.Conns ai.Conns aj.Conns

/-- The counter a sort key selects (the first pair handed to `sortMultiSort`). -/
def selected (sort : String) (a : AccountStat) : Int :=
  if sort = "subs" then a.NumSubs
  else if sort = "slow" then a.SlowConsumers
  else if sort = "sentb" then a.Sent.Bytes
  else if sort = "sentm" then a.Sent.Msgs
  else if sort = "recvb" then a.Received.Bytes
  else if sort = "recvm" then a.Received.Msgs
  else a.Conns

/-- One pass of the inner loop of an insertion sort: `rev` is the sorted part,
last element first, and `x` moves towards the front for as long as it is less
than the element before it. -/
def sink {α : Type} (less : α → α → Bool) (x : α) : List α → List α
  | [] => [x]
  | y :: rest => if less x y then y :: sink less x rest else x :: y :: rest

/-- The standard library's `sort.Slice`, which promises a permutation ordered
by `less` and no more (it is not stable). It is embedded as the insertion sort
that `sort.Slice` runs on slices of at most 12 elements. -/
def sortSlice {α : Type} (less : α → α → Bool) (xs : List α) : List α :=
  (xs.foldl (fun rev x => sink less x rev) []).reverse

/-- What `sort.Slice` promises of its result `out` for the slice `xs`: the same
elements, and no element less than one placed before it. -/
def SortedBy {α : Type} (less : α → α → Bool) (xs out : List α) : Prop :=
  out.Perm xs ∧ out.Pairwise (fun a b => less b a = false)

/-- The `tc` of lines 164-167: `"%d"` of the number of accounts, or
`"%d / %d"` of the limit and the number of accounts. -/
inductive TopLabel where
  | all (n : Nat)
  | limited (top : Int) (n : Nat)
deriving DecidableEq, Repr

/-- A row of the table (lines 180-189): the account, `seen[account.Account]`
and the counters that are printed. -/
structure Row where
  Account : String
  Servers : Nat
  stat : AccountStat
deriving DecidableEq, Repr

/-- What `redraw` puts on the screen, with the sorted list it is cut from. -/
structure Frame where
  tc : TopLabel
  sortName : String
  lastMsg : Int
  accounts : List AccountStat
  rows : List Row
deriving DecidableEq, Repr

/-- The loop `for acct := range c.accounts` (lines 136-140): the locals
`accounts` and `seen` after it. The total is appended whatever the number of
servers counted; `accountTotal` returns nil only for an account that is not a
key of the table, which `acct` always is. -/
def collectTotals (c : SrvWatchAccountCmd) (now : Int) : List AccountStat × GoMap Nat :=
  c.accounts.foldl
    (fun acc entry =>
      match accountTotal c now entry.1 with
      | (srvs, some total) => (acc.1 ++ [total], mapSet acc.2 entry.1 srvs)
      | (srvs, none) => (acc.1, mapSet acc.2 entry.1 srvs))
    ([], [])

/-- The method `redraw` (lines 129-194) at the instant `now`. An error is the
run-time panic of the slice expression `accounts[:c.topCount]`. -/
def redraw (c : SrvWatchAccountCmd) (now : Int) : Except String Frame :=
  let collected := collectTotals c now
  let seen := collected.2
  let accounts := sortSlice (accountLess c.sort) collected.1
  let tc :=
    if (accounts.length : Int) > c.topCount then TopLabel.limited c.topCount accounts.length
    else TopLabel.all accounts.length
  let matched : Except String (List AccountStat) :=
    if (accounts.length : Int) < c.topCount then .ok accounts
    else if c.topCount < 0 then .error "slice bounds out of range"
    else .ok (accounts.take c.topCount.toNat)
  match matched with
  | .error e => .error e
  | .ok matched =>
    .ok { tc := tc,
          sortName := (mapGet c.sortNames c.sort).getD "",
          lastMsg := c.lastMsg,
          accounts := accounts,
          rows := matched.map (fun account =>
            { Account := account.Account,
              Servers := (mapGet seen account.Account).getD 0,
              stat := account }) }

/-- A sample is fresh at `now`: its server timestamp is at most 35 seconds
before `now`. -/
def Fresh (now : Int) (s : AccountNumConns) : Prop :=
  now - s.Server.Time ≤ 35 * second

instance (now : Int) (s : AccountNumConns) : Decidable (Fresh now s) := by
  unfold Fresh; infer_instance

/-- Follows the spec's words, not the code: the latest sample of each distinct
server in a sequence of samples, that is every sample that no later sample of
the same server supersedes. -/
def latestSamples : List AccountNumConns → List AccountNumConns
  | [] => []
  | s :: rest =>
    if rest.any (fun r => decide (r.Server.ID = s.Server.ID)) then latestSamples rest
    else s :: latestSamples rest

/-- Follows the spec's words: the distinct server identifiers of a sequence of
samples. -/
def distinctServers (samples : List AccountNumConns) : Finset String :=
  (samples.map (fun s => s.Server.ID)).toFinset

/-- The samples a sequence of messages carries for the account `acct`, in the
order they are received: undecodable messages and the samples of other
accounts are left out. -/
def samplesFor (acct : String) (msgs : List (Payload × Int)) : List AccountNumConns :=
  msgs.filterMap (fun m =>
    match m.1 with
    | .sample s => if s.Account = acct then some s else none
    | .undecodable _ => none)

/-- Follows the spec's words: the element-wise sum of the counters of a list of
samples, under the account identifier `acct`. -/
def elementwiseSum (acct : String) (l : List AccountNumConns) : AccountStat :=
  { Account := acct,
    Conns := (l.map (fun s => s.Conns)).sum,
    LeafNodes := (l.map (fun s => s.LeafNodes)).sum,
    TotalConns := (l.map (fun s => s.TotalConns)).sum,
    NumSubs := (l.map (fun s => s.NumSubs)).sum,
    Sent := { Msgs := (l.map (fun s => s.Sent.Msgs)).sum,
              Bytes := (l.map (fun s => s.Sent.Bytes)).sum },
    Received := { Msgs := (l.map (fun s => s.Received.Msgs)).sum,
                  Bytes := (l.map (fun s => s.Received.Bytes)).sum },
    SlowConsumers := (l.map (fun s => s.SlowConsumers)).sum }

/-- Lines 70-85 of `accountsAction`: the row limit the render loop runs with,
from the value `topCount` of the `--number` flag and from what
`terminal.GetSize` returned, the height `h` and its error. An error is the
configuration error the action returns before it connects. -/
def effectiveTopCount (topCount h : Int) (sizeErr : Option String) : Except String Int :=
  match sizeErr, decide (topCount = 0) with
  | some e, true => .error ("could not determine screen dimensions: " ++ e)
  | _, _ =>
    let topCount := if topCount = 0 then h - 8 else topCount
    if topCount < 1 then
      .error "requested render limits exceed screen size"
    else if topCount > h - 8 then
      .ok (h - 8)
    else
      .ok topCount

/-- The sample the table holds for the pair (account, server):
`c.accounts[acct][server]` with its `ok` flag. -/
def sampleAt (c : SrvWatchAccountCmd) (acct server : String) : Option AccountNumConns :=
  match mapGet c.accounts acct with
  | none => none
  | some stats => mapGet stats server

/-- A payload that decodes. -/
def Payload.isSample : Payload → Bool
  | .sample _ => true
  | .undecodable _ => false

/-- The two values the comparison function of `redraw` looks at: the counter
the sort key selects and the connection count. -/
def rankKey (sort : String) (a : AccountStat) : Int × Int :=
  (selected sort a, a.Conns)

/-- The rows `redraw` selects from the sorted list (lines 172-177), as the
aggregated accounts they show. -/
def Frame.selectedAccounts (frame : Frame) : List AccountStat :=
  frame.rows.map (fun r => r.stat)

/-! ## `accountsAction` and the lock -/

/-- What `redraw`, `handle` and `accountsAction` do to the outside and to the
mutex `c.mu`, in the order the code does it. -/
inductive Effect where
  | getSize
  | prepareHelper
  | subscribe (subject : String)
  | lock
  | unlock
  | accountTotal (acct : String)
  | sortSlice
  | clearScreen
  | render (frame : Frame)
  | println (frame : Frame)
deriving DecidableEq, Repr

/-- What one call of `redraw` does between taking the mutex and giving it
back, in the order of lines 133-193: `c.accountTotal(acct)` reads the table for
every account of it, `sort.Slice` sorts, and, unless the slice expression of
line 176 panics, `clearScreen()` is called, `table.Render()` renders and
`fmt.Println` prints. -/
def redrawBody (c : SrvWatchAccountCmd) (now : Int) : List Effect :=
  c.accounts.map (fun entry => Effect.accountTotal entry.1) ++ [Effect.sortSlice] ++
    match redraw c now with
    | .ok frame => [.clearScreen, .render frame, .println frame]
    | .error _ => []

/-- The effects of one call of `redraw` (lines 129-194) at the instant `now`:
`c.mu.Lock()` on entry (line 130), the body, and the `c.mu.Unlock()` deferred
at line 131, which runs when the function returns or panics. -/
def redrawEffects (c : SrvWatchAccountCmd) (now : Int) : List Effect :=
  Effect.lock :: redrawBody c now ++ [Effect.unlock]

/-- The effects of one call of `handle` (lines 111-127): none when the payload
does not decode, `c.mu.Lock()` and the deferred `c.mu.Unlock()` around the
update of the table otherwise. -/
def handleEffects : Payload → List Effect
  | .undecodable _ => []
  | .sample _ => [.lock, .unlock]

/-- The mutex is held after the effects `pre`: `pre` has more `lock` than
`unlock`. -/
def lockHeld (pre : List Effect) : Bool :=
  decide (pre.count Effect.unlock < pre.count Effect.lock)

/-- The effect `e` happens in `effects` at a point where the mutex is held. -/
def happensUnderLock (e : Effect) (effects : List Effect) : Prop :=
  ∃ pre post, effects = pre ++ e :: post ∧ lockHeld pre = true

/-- What the watcher meets while it runs, in the order in which the mutex and
the `select` of lines 101-108 take it: a message handed to `handle`, a tick of
the render ticker, or the cancellation of the context. -/
inductive WatchEvent where
  | message (msg : Payload) (now : Int)
  | tick (now : Int)
  | cancel
deriving DecidableEq, Repr

/-- A tick of the render ticker. -/
def WatchEvent.isTick : WatchEvent → Bool
  | .tick _ => true
  | _ => false

/-- What the collaborators of `accountsAction` answer: `terminal.GetSize` (the
height and the error), `prepareHelper`, `nc.Subscribe`, and the events of the
run. -/
structure WatchEnv where
  height : Int
  sizeErr : Option String
  prepareHelper : Except String Unit
  subscribe : Except String Unit
  events : List WatchEvent

/-- A run of `accountsAction`: its result (`none` while the loop waits for its
next event), the effects so far and the receiver as it stands. -/
structure WatchRun where
  result : Option ActionResult
  effects : List Effect
  store : SrvWatchAccountCmd
deriving DecidableEq, Repr

/-- The loop of lines 101-108 together with the subscription callback: a
message is handled, a tick redraws, the cancellation returns nil. A panic of
`redraw` ends the process with status 2. -/
def watchLoop : List WatchEvent → SrvWatchAccountCmd → List Effect → WatchRun
  | [], c, effects => { result := none, effects := effects, store := c }
  | .cancel :: _, c, effects =>
    { result := some (.returned none), effects := effects, store := c }
  | .message msg now :: rest, c, effects =>
    watchLoop rest (handle c msg now) (effects ++ handleEffects msg)
  | .tick now :: rest, c, effects =>
    match redraw c now with
    | .ok _ => watchLoop rest c (effects ++ redrawEffects c now)
    | .error _ =>
      { result := some (.exited 2), effects := effects ++ redrawEffects c now, store := c }

/-- The action `accountsAction` (lines 69-109). -/
def accountsAction (c : SrvWatchAccountCmd) (env : WatchEnv) : WatchRun :=
  match effectiveTopCount c.topCount env.height env.sizeErr with
  | .error e => { result := some (.returned (some e)), effects := [.getSize], store := c }
  | .ok topCount =>
    let c := { c with topCount := topCount }
    match env.prepareHelper with
    | .error e =>
      { result := some (.returned (some e)), effects := [.getSize, .prepareHelper], store := c }
    | .ok _ =>
      match env.subscribe with
      | .error e =>
        { result := some (.returned (some e)),
          effects := [.getSize, .prepareHelper, .subscribe "$SYS.ACCOUNT.*.SERVER.CONNS"],
          store := c }
      | .ok _ =>
        watchLoop env.events c
          [.getSize, .prepareHelper, .subscribe "$SYS.ACCOUNT.*.SERVER.CONNS"]

/-! ## `showObjectInfo` -/

/-- Go's `strings.Split` for a separator of one character, on the characters of
the string: the pieces between the separators, in order. -/
def splitChars (sep : Char) : List Char → List (List Char)
  | [] => [[]]
  | ch :: rest =>
    if ch = sep then [] :: splitChars sep rest
    else
      match splitChars sep rest with
      | [] => [[ch]]
      | piece :: pieces => (ch :: piece) :: pieces

/-- The call `strings.Split(nfo.Digest, "=")` of line 320. -/
def splitDigest (digest : String) : List String :=
  (splitChars '=' digest.data).map String.mk

/-- Lines 320-321 of `showObjectInfo`: the string `digest[1]` handed to
`base64.URLEncoding.DecodeString`; `none` is the index-out-of-range panic of
`digest[1]`. -/
def decoderInput (digest : String) : Option String :=
  (splitDigest digest)[1]?

/-- Follows the claim's words: everything that follows the first '=' of the
digest; `none` when the digest has no '='. -/
def afterFirstEq (digest : String) : Option String :=
  match digest.data.dropWhile (fun ch => ch != '=') with
  | [] => none
  | _ :: payload => some (String.mk payload)

/-! ## Example inputs -/

/-- A stand-down command without a placement constraint. -/
def exampleCmd : SrvClusterCmd :=
  { json := false, force := false, peer := "", placementCluster := "" }

/-- A cluster state naming `leader` as the meta leader, with two replicas. -/
def stateWithLeader (leader : String) : Reply :=
  .info { Meta := { Leader := leader,
                    Replicas := [⟨"S2", "id2", false⟩, ⟨"S3", "id3", false⟩] } }

/-- A cluster whose leader is "S1" before the operation and at every poll. -/
def envSameLeader : StandDownEnv :=
  { prepareHelper := .ok (), marshal := .ok (), initial := stateWithLeader "S1",
    metaLeaderStandDown := fun _ => .ok (), polls := fun _ => stateWithLeader "S1" }

/-- A cluster whose leader is "S1" before the operation and at the first two
polls, and "S2" from the third poll on. -/
def envNewLeaderAtThird : StandDownEnv :=
  { prepareHelper := .ok (), marshal := .ok (), initial := stateWithLeader "S1",
    metaLeaderStandDown := fun _ => .ok (),
    polls := fun n => if n < 2 then stateWithLeader "S1" else stateWithLeader "S2" }

/-- A cluster whose first poll times out, whose second poll has no data, and
which names "S2" as leader from the third poll on. -/
def envFailingThenNewLeader : StandDownEnv :=
  { prepareHelper := .ok (), marshal := .ok (), initial := stateWithLeader "S1",
    metaLeaderStandDown := fun _ => .ok (),
    polls := fun n =>
      if n = 0 then .requestFailed "nats: timeout"
      else if n = 1 then .noData
      else stateWithLeader "S2" }

/-- A sample of the account `acct` reported by the server `sid` at the instant
`time`, with `conns` connections and `subs` subscriptions. -/
def sampleOf (acct sid : String) (time conns subs : Int) : AccountNumConns :=
  { Account := acct, Conns := conns, LeafNodes := 1, TotalConns := conns + 5, NumSubs := subs,
    Sent := { Msgs := 3, Bytes := 300 }, Received := { Msgs := 4, Bytes := 400 },
    SlowConsumers := 0, Server := { ID := sid, Time := time } }

/-- Server "s1" reports on account "A" at 0 s and again at 30 s, server "s2" at
5 s; an undecodable message and a sample of account "B" come in between. -/
def exampleMsgs : List (Payload × Int) :=
  [(.sample (sampleOf "A" "s1" 0 2 7), 0),
   (.undecodable "unexpected end of JSON input", 1 * second),
   (.sample (sampleOf "A" "s2" (5 * second) 1 1), 5 * second),
   (.sample (sampleOf "B" "s1" (6 * second) 8 8), 6 * second),
   (.sample (sampleOf "A" "s1" (30 * second) 4 9), 30 * second)]

/-- The watcher after `exampleMsgs`, sorting by connections, 10 rows at most. -/
def exampleStore : SrvWatchAccountCmd :=
  handleAll (newWatchCmd "conns" 10) exampleMsgs

/-- The watcher after one sample of account "A", stamped 0 s by server "s1". -/
def storeOneSample : SrvWatchAccountCmd :=
  handleAll (newWatchCmd "conns" 10) [(.sample (sampleOf "A" "s1" 0 2 7), 0)]

/-- The watcher sorting by subscriptions after one sample of account "A" (2
connections, 7 subscriptions) and one of account "B" (1 connection, 7
subscriptions). -/
def storeTiedOnSubs : SrvWatchAccountCmd :=
  handleAll (newWatchCmd "subs" 10)
    [(.sample (sampleOf "A" "s1" 0 2 7), 0), (.sample (sampleOf "B" "s1" 0 1 7), 0)]

/-- The frame `redraw` builds from `storeTiedOnSubs`: "B" before "A". -/
def frameTiedOnSubs : Frame :=
  { tc := .all 2, sortName := "Subscriptions", lastMsg := 0,
    accounts := [(sampleOf "B" "s1" 0 1 7).toAccountStat, (sampleOf "A" "s1" 0 2 7).toAccountStat],
    rows := [{ Account := "B", Servers := 1, stat := (sampleOf "B" "s1" 0 1 7).toAccountStat },
             { Account := "A", Servers := 1, stat := (sampleOf "A" "s1" 0 2 7).toAccountStat }] }

/-- The watcher sorting by subscriptions after one sample of account "A" and
then one of account "B", both with 3 connections and 7 subscriptions. -/
def storeEqualAB : SrvWatchAccountCmd :=
  handleAll (newWatchCmd "subs" 10)
    [(.sample (sampleOf "A" "s1" 0 3 7), 0), (.sample (sampleOf "B" "s1" 0 3 7), 0)]

/-- The same two samples as in `storeEqualAB`, received in the other order: the
same table, enumerated the other way round. -/
def storeEqualBA : SrvWatchAccountCmd :=
  handleAll (newWatchCmd "subs" 10)
    [(.sample (sampleOf "B" "s1" 0 3 7), 0), (.sample (sampleOf "A" "s1" 0 3 7), 0)]

/-- The watcher with the row limit -2 after one sample of account "A". -/
def storeNegativeLimit : SrvWatchAccountCmd :=
  handleAll (newWatchCmd "conns" (-2)) [(.sample (sampleOf "A" "s1" 0 2 7), 0)]

/-- A snapshot in which the target "n1" matches two offline replicas, the first
by name and the second by identifier. -/
def snapshotTwoMatches : List PeerInfo :=
  [⟨"n1", "idA", true⟩, ⟨"n2", "idB", false⟩, ⟨"n3", "n1", true⟩]

/-- The watcher after `exampleMsgs` with the row limit 1. -/
def storeLimitOne : SrvWatchAccountCmd :=
  handleAll (newWatchCmd "conns" 1) exampleMsgs

/-- A cluster whose leader is "S1" before the operation and which refuses the
stand-down command. -/
def envIssueFails : StandDownEnv :=
  { prepareHelper := .ok (), marshal := .ok (), initial := stateWithLeader "S1",
    metaLeaderStandDown := fun _ => .error "nats: timeout",
    polls := fun _ => stateWithLeader "S2" }

/-- A cluster whose leader is "S1" before the operation and which reports no
leader at every poll. -/
def envLeaderlessAfter : StandDownEnv :=
  { prepareHelper := .ok (), marshal := .ok (), initial := stateWithLeader "S1",
    metaLeaderStandDown := fun _ => .ok (), polls := fun _ => stateWithLeader "" }

/-- A cluster that reports no leader on the initial read. -/
def envLeaderlessBefore : StandDownEnv :=
  { prepareHelper := .ok (), marshal := .ok (), initial := stateWithLeader "",
    metaLeaderStandDown := fun _ => .ok (), polls := fun _ => stateWithLeader "S2" }

/-- A run in which the terminal size cannot be determined; a tick and the
cancellation would follow. -/
def envNoTerminal : WatchEnv :=
  { height := 0, sizeErr := some "inappropriate ioctl for device",
    prepareHelper := .ok (), subscribe := .ok (),
    events := [.tick (1 * second), .cancel] }

/-- A tick at 36 s, a sample of account "B", a tick at 37 s. -/
def eventsTicksAndMessage : List WatchEvent :=
  [.tick (36 * second), .message (.sample (sampleOf "B" "s2" (36 * second) 1 1)) (36 * second),
   .tick (37 * second)]

/-- The digest of an object with no content: SHA-256 in the URL alphabet of
base64, with its padding. -/
def digestOfEmptyObject : String :=
  "SHA-256=47DEQpj8HBSa-_TImW-5JCeuQeRkm5NMpJWZG3hSuFU="

/-! ## Theorems: peer removal -/

theorem findReplica_live_match (peer : String) (replicas : List PeerInfo) (st : Found)
    (r : PeerInfo) (hr : r ∈ replicas) (hm : r.matchesTarget peer) (hoff : r.Offline = false) :
    findReplica peer replicas st = .error "can only remove offline nodes" := by
  induction replicas generalizing st with
  | nil => cases hr
  | cons x xs ih =>
    rcases List.mem_cons.1 hr with rfl | hmem
    · have hm' : r.Name = peer ∨ r.Peer = peer := hm
      simp [findReplica, hm', hoff]
    · unfold findReplica
      split
      · split
        · rfl
        · exact ih _ hmem
      · exact ih _ hmem


theorem findReplica_no_match (peer : String) (replicas : List PeerInfo) (st : Found)
    (h : ∀ r ∈ replicas, ¬ r.matchesTarget peer) :
    findReplica peer replicas st = .ok st := by
  induction replicas generalizing st with
  | nil => rfl
  | cons x xs ih =>
    have hx : ¬ (x.Name = peer ∨ x.Peer = peer) := h x (List.mem_cons_self _ _)
    have hxs : ∀ r ∈ xs, ¬ r.matchesTarget peer := fun r hr => h r (List.mem_cons_of_mem _ hr)
    simp only [findReplica, hx, if_false]
    exact ih st hxs

theorem validatePeer_unknown (peer : String) (replicas : List PeerInfo)
    (h : ∀ r ∈ replicas, ¬ r.matchesTarget peer) :
    validatePeer peer replicas = .error ("did not find a replica named " ++ peer) := by
  simp [validatePeer, findReplica_no_match peer replicas _ h]

theorem validatePeer_live_match (peer : String) (replicas : List PeerInfo) (r : PeerInfo)
    (hr : r ∈ replicas) (hm : r.matchesTarget peer) (hoff : r.Offline = false) :
    validatePeer peer replicas = .error "can only remove offline nodes" := by
  simp [validatePeer, findReplica_live_match peer replicas _ r hr hm hoff]

theorem confirmAndRemove_calls (c : SrvClusterCmd) (env : PeerRemoveEnv)
    (foundName foundID : String) (calls : List Call) (call : Call)
    (hmem : call ∈ (confirmAndRemove c env foundName foundID calls).2)
    (hrm : call.isRemove = true) :
    call ∈ calls ∨ call = Call.metaPeerRemove (if foundID ≠ "" then "" else foundName) foundID := by
  unfold confirmAndRemove at hmem
  simp only at hmem
  split at hmem
  · split at hmem
    · simp only [List.mem_append, List.mem_singleton] at hmem
      rcases hmem with h | h
      · exact Or.inl h
      · subst h; simp [Call.isRemove] at hrm
    · simp only [List.mem_append, List.mem_singleton] at hmem
      rcases hmem with h | h
      · exact Or.inl h
      · subst h; simp [Call.isRemove] at hrm
    · split at hmem <;>
      · simp only [List.mem_append, List.mem_singleton] at hmem
        rcases hmem with (h | h) | h
        · exact Or.inl h
        · subst h; simp [Call.isRemove] at hrm
        · exact Or.inr h
  · split at hmem <;>
    · simp only [List.mem_append, List.mem_singleton] at hmem
      rcases hmem with h | h
      · exact Or.inl h
      · exact Or.inr h

/-- C1: whenever some replica of the snapshot matches the target by name or by
identifier and is not offline, the validation fails with "can only remove
offline nodes", whatever else the snapshot holds and wherever that replica
stands, and `metaPeerRemoveAction` returns that error. -/
theorem metaPeerRemove_refuses_live_peer (c : SrvClusterCmd) (env : PeerRemoveEnv)
    (replicas : List PeerInfo) (r : PeerInfo)
    (hr : r ∈ replicas) (hm : r.Name = c.peer ∨ r.Peer = c.peer) (hoff : r.Offline = false) :
    validatePeer c.peer replicas = .error "can only remove offline nodes" ∧
    (env.prepareHelper = .ok () → env.doReq = .ok [.ok replicas] →
      (metaPeerRemoveAction c env).1 = .returned (some "can only remove offline nodes")) := by
  have hv := validatePeer_live_match c.peer replicas r hr hm hoff
  refine ⟨hv, fun hp hreq => ?_⟩
  simp [metaPeerRemoveAction, hp, hreq, hv]

/-- Witness of C1: an offline replica "n1", then a live replica with the same
name, then an offline replica with the target as identifier. -/
theorem metaPeerRemove_refuses_live_peer_witness :
    validatePeer "n1"
        [⟨"n1", "idA", true⟩, ⟨"n1", "idB", false⟩, ⟨"n3", "n1", true⟩] =
      .error "can only remove offline nodes" ∧
    ((Except.ok () : Except String Unit) = .ok () →
      (Except.ok [.ok [⟨"n1", "idA", true⟩, ⟨"n1", "idB", false⟩, ⟨"n3", "n1", true⟩]] :
          Except String (List (Except String (List PeerInfo)))) =
        .ok [.ok [⟨"n1", "idA", true⟩, ⟨"n1", "idB", false⟩, ⟨"n3", "n1", true⟩]] →
      (metaPeerRemoveAction ⟨false, true, "n1", ""⟩
        ⟨.ok (), .ok [.ok [⟨"n1", "idA", true⟩, ⟨"n1", "idB", false⟩, ⟨"n3", "n1", true⟩]],
          fun _ => .ok true, fun _ _ => .ok ()⟩).1 =
        .returned (some "can only remove offline nodes")) :=
  metaPeerRemove_refuses_live_peer ⟨false, true, "n1", ""⟩
    ⟨.ok (), .ok [.ok [⟨"n1", "idA", true⟩, ⟨"n1", "idB", false⟩, ⟨"n3", "n1", true⟩]],
      fun _ => .ok true, fun _ _ => .ok ()⟩
    [⟨"n1", "idA", true⟩, ⟨"n1", "idB", false⟩, ⟨"n3", "n1", true⟩] ⟨"n1", "idB", false⟩
    (by decide) (by decide) rfl

/-- C2: in every run of `metaPeerRemoveAction`, a call of the remove-peer API
in the calls made means that the cluster-state reply was decoded and that the
validation of its snapshot succeeded, the call being made with the pair the
validation yielded; and when the snapshot holds no replica matching the target,
or holds a matching replica that is not offline, the action returns an error
and makes no call of the remove-peer API. -/
theorem metaPeerRemove_only_after_validation (c : SrvClusterCmd) (env : PeerRemoveEnv) :
    (∀ call ∈ (metaPeerRemoveAction c env).2, call.isRemove = true →
      ∃ replicas name id, env.prepareHelper = .ok () ∧ env.doReq = .ok [.ok replicas] ∧
        validatePeer c.peer replicas = .ok (name, id) ∧
        call = Call.metaPeerRemove (if id ≠ "" then "" else name) id) ∧
    (∀ replicas, env.doReq = .ok [.ok replicas] →
      ((∀ r ∈ replicas, ¬ (r.Name = c.peer ∨ r.Peer = c.peer)) ∨
        (∃ r ∈ replicas, (r.Name = c.peer ∨ r.Peer = c.peer) ∧ r.Offline = false)) →
      (∃ e, (metaPeerRemoveAction c env).1 = .returned (some e)) ∧
      ∀ call ∈ (metaPeerRemoveAction c env).2, call.isRemove = false) := by
  constructor
  · intro call hmem hrm
    unfold metaPeerRemoveAction at hmem
    cases hp : env.prepareHelper with
    | error e => rw [hp] at hmem; simp at hmem; subst hmem; simp [Call.isRemove] at hrm
    | ok u =>
      cases hq : env.doReq with
      | error e =>
        rw [hp, hq] at hmem; simp at hmem
        rcases hmem with h | h <;> (subst h; simp [Call.isRemove] at hrm)
      | ok res =>
        rw [hp, hq] at hmem
        simp only at hmem
        split at hmem
        · rename_i raw
          cases raw with
          | error e =>
            simp at hmem
            rcases hmem with h | h <;> (subst h; simp [Call.isRemove] at hrm)
          | ok replicas =>
            simp only at hmem
            cases hv : validatePeer c.peer replicas with
            | error e =>
              rw [hv] at hmem; simp at hmem
              rcases hmem with h | h <;> (subst h; simp [Call.isRemove] at hrm)
            | ok pr =>
              obtain ⟨name, id⟩ := pr
              rw [hv] at hmem
              simp only at hmem
              rcases confirmAndRemove_calls c env name id _ call hmem hrm with h | h
              · simp at h
                rcases h with h | h <;> (subst h; simp [Call.isRemove] at hrm)
              · exact ⟨replicas, name, id, rfl, rfl, hv, h⟩
        · simp at hmem
          rcases hmem with h | h <;> (subst h; simp [Call.isRemove] at hrm)
  · intro replicas hq hbad
    have hv : ∃ e, validatePeer c.peer replicas = .error e := by
      rcases hbad with h | ⟨r, hr, hm, hoff⟩
      · exact ⟨_, validatePeer_unknown c.peer replicas h⟩
      · exact ⟨_, validatePeer_live_match c.peer replicas r hr hm hoff⟩
    obtain ⟨e, hv⟩ := hv
    unfold metaPeerRemoveAction
    cases hp : env.prepareHelper with
    | error e' => simp [Call.isRemove]
    | ok u => simp [hq, hv, Call.isRemove]

/-- Witness of C2: the target "n1" is unknown in a snapshot holding only "n2",
so no remove call is made although the operator forces the removal. -/
theorem metaPeerRemove_only_after_validation_witness :
    (∃ e, (metaPeerRemoveAction ⟨false, true, "n1", ""⟩
        ⟨.ok (), .ok [.ok [⟨"n2", "id2", true⟩]], fun _ => .ok true, fun _ _ => .ok ()⟩).1 =
      .returned (some e)) ∧
    ∀ call ∈ (metaPeerRemoveAction ⟨false, true, "n1", ""⟩
        ⟨.ok (), .ok [.ok [⟨"n2", "id2", true⟩]], fun _ => .ok true, fun _ _ => .ok ()⟩).2,
      call.isRemove = false :=
  (metaPeerRemove_only_after_validation ⟨false, true, "n1", ""⟩
    ⟨.ok (), .ok [.ok [⟨"n2", "id2", true⟩]], fun _ => .ok true, fun _ _ => .ok ()⟩).2
    [⟨"n2", "id2", true⟩] rfl (Or.inl (by decide))

/-! ## Theorems: leader stand-down -/

theorem pollLoop_continue (leader : String) (m : Nat) :
    ∀ (t : Nat) (replies : Nat → Reply) (ctr polls el : Nat), ctr + m ≤ 5 →
      (∀ j < m, ¬ (replies j).reportsNewLeader leader) →
      pollLoop leader (m + t) replies ctr polls el =
        pollLoop leader t (fun n => replies (n + m)) (ctr + m) (polls + m)
          (el + pollIntervalMs * m) := by
  induction m with
  | zero => intro t replies ctr polls el _ _; simp
  | succ m ih =>
    intro t replies ctr polls el hctr hsame
    have hne : ctr ≠ 5 := by omega
    have h0 : ¬ (replies 0).reportsNewLeader leader := hsame 0 (by omega)
    have hrest : ∀ j < m, ¬ (replies (j + 1)).reportsNewLeader leader :=
      fun j hj => hsame (j + 1) (by omega)
    have hstep : pollLoop leader (m + 1 + t) replies ctr polls el =
        pollLoop leader (m + t) (fun n => replies (n + 1)) (ctr + 1) (polls + 1)
          (el + pollIntervalMs) := by
      have ht : m + 1 + t = (m + t) + 1 := by omega
      rw [ht]
      unfold Reply.reportsNewLeader at h0
      simp only [pollLoop, hne, if_false]
      split
      · rfl
      · rename_i resp hresp
        rw [hresp] at h0
        simp only [not_not] at h0
        simp [h0]
    rw [hstep, ih t (fun n => replies (n + 1)) (ctr + 1) (polls + 1) (el + pollIntervalMs)
      (by omega) hrest]
    have e1 : ctr + 1 + m = ctr + (m + 1) := by omega
    have e2 : polls + 1 + m = polls + (m + 1) := by omega
    have e3 : el + pollIntervalMs + pollIntervalMs * m = el + pollIntervalMs * (m + 1) := by
      rw [Nat.mul_succ]; omega
    have e4 : (fun n => (fun n => replies (n + 1)) (n + m)) = fun n => replies (n + (m + 1)) := by
      funext n
      show replies (n + m + 1) = replies (n + (m + 1))
      rfl
    rw [e1, e2, e3, e4]

theorem pollLoop_converges (leader : String) (k t : Nat) (replies : Nat → Reply) (hk : k < 5)
    (hsame : ∀ j < k, ¬ (replies j).reportsNewLeader leader)
    (hnew : (replies k).reportsNewLeader leader) :
    pollLoop leader (k + (t + 1)) replies 0 0 0 =
      some { result := .exited 0, polls := k + 1, elapsedMs := pollIntervalMs * (k + 1) } := by
  rw [pollLoop_continue leader k (t + 1) replies 0 0 0 (by omega) hsame]
  have hne : k ≠ 5 := by omega
  unfold Reply.reportsNewLeader at hnew
  cases hg : getJSI (replies k) with
  | error e => rw [hg] at hnew; exact False.elim hnew
  | ok resp =>
    rw [hg] at hnew
    have hnew' : resp.Meta.Leader ≠ leader := hnew
    simp [pollLoop, hne, hg, hnew', Nat.mul_succ]

theorem pollLoop_times_out (leader : String) (t : Nat) (replies : Nat → Reply)
    (hsame : ∀ j < 5, ¬ (replies j).reportsNewLeader leader) :
    pollLoop leader (5 + (t + 1)) replies 0 0 0 =
      some { result := timedOut, polls := 5, elapsedMs := pollIntervalMs * 6 } := by
  rw [pollLoop_continue leader 5 (t + 1) replies 0 0 0 (by omega) hsame]
  simp [pollLoop, timedOut, Nat.mul_succ]

theorem pollLoop_waits (leader : String) (m : Nat) (replies : Nat → Reply) (hm : m ≤ 5)
    (hsame : ∀ j < m, ¬ (replies j).reportsNewLeader leader) :
    pollLoop leader m replies 0 0 0 = none := by
  have h := pollLoop_continue leader m 0 replies 0 0 0 (by omega) hsame
  rw [Nat.add_zero] at h
  rw [h]
  rfl

theorem standDown_enters_loop (c : SrvClusterCmd) (env : StandDownEnv) (leader : String)
    (h : env.startsPolling c leader) (ticks : Nat) :
    metaLeaderStandDownAction c env ticks =
      (pollLoop leader ticks env.polls 0 0 0).map (fun run =>
        { result := run.result,
          calls := callsBeforePolling c ++ List.replicate run.polls Call.getJSI,
          elapsedMs := run.elapsedMs }) := by
  obtain ⟨hp, hm, hi, hl, hs⟩ := h
  unfold Reply.reportsLeader at hi
  cases hg : getJSI env.initial with
  | error e => rw [hg] at hi; exact False.elim hi
  | ok i =>
    rw [hg] at hi
    have hi' : i.Meta.Leader = leader := hi
    subst hi'
    unfold metaLeaderStandDownAction
    simp only [ne_eq, ite_not] at hs
    cases hloop : pollLoop i.Meta.Leader ticks env.polls 0 0 0 <;>
      simp [hp, hm, hg, hl, hs, hloop, callsBeforePolling]

theorem not_new_of_same (r : Reply) (leader : String) (h : r.reportsLeader leader) :
    ¬ r.reportsNewLeader leader := by
  unfold Reply.reportsLeader at h
  unfold Reply.reportsNewLeader
  cases hg : getJSI r with
  | error e => simp
  | ok i =>
    rw [hg] at h
    have h' : i.Meta.Leader = leader := h
    simp [h']

theorem not_new_of_fails (r : Reply) (leader : String) (h : r.fails) :
    ¬ r.reportsNewLeader leader := by
  unfold Reply.fails at h
  unfold Reply.reportsNewLeader
  cases hg : getJSI r with
  | error e => simp
  | ok i => rw [hg] at h; exact False.elim h

theorem timedOut_ne_success : timedOut ≠ ActionResult.exited 0 := by
  simp [timedOut]

/-- C6: when the operation reaches its poll loop and every poll reports the
pre-operation leader, the action ends with the error "stream did not elect a
new leader in time" having made exactly 5 polls after the stand-down command
(no 6th `getJSI` call follows), as soon as its ticker has ticked 6 times; with
5 ticks or fewer it is still waiting. -/
theorem standDown_times_out_after_five_polls (c : SrvClusterCmd) (env : StandDownEnv)
    (leader : String) (h : env.startsPolling c leader)
    (hsame : ∀ n, (env.polls n).reportsLeader leader) (ticks : Nat) (ht : 6 ≤ ticks) :
    (metaLeaderStandDownAction c env ticks).map (fun run => (run.result, run.calls)) =
      some (timedOut, callsBeforePolling c ++ List.replicate 5 Call.getJSI) ∧
    ∀ t ≤ 5, metaLeaderStandDownAction c env t = none := by
  have hnot : ∀ j, ¬ (env.polls j).reportsNewLeader leader :=
    fun j => not_new_of_same _ _ (hsame j)
  constructor
  · obtain ⟨t, rfl⟩ : ∃ t, ticks = 5 + (t + 1) := ⟨ticks - 6, by omega⟩
    rw [standDown_enters_loop c env leader h,
      pollLoop_times_out leader t env.polls (fun j _ => hnot j)]
    rfl
  · intro t ht5
    rw [standDown_enters_loop c env leader h,
      pollLoop_waits leader t env.polls ht5 (fun j _ => hnot j)]
    rfl

/-- Witness of C6: the leader is "S1" at every poll and the ticker ticks 6
times. -/
theorem standDown_times_out_after_five_polls_witness :
    (metaLeaderStandDownAction exampleCmd envSameLeader 6).map
        (fun run => (run.result, run.calls)) =
      some (timedOut, callsBeforePolling exampleCmd ++ List.replicate 5 Call.getJSI) ∧
    ∀ t ≤ 5, metaLeaderStandDownAction exampleCmd envSameLeader t = none :=
  standDown_times_out_after_five_polls exampleCmd envSameLeader "S1"
    ⟨rfl, rfl, by decide, by decide, rfl⟩
    (fun _ => by simp [envSameLeader, stateWithLeader, Reply.reportsLeader, getJSI])
    6 (by decide)

/-- C7: for every k from 1 to 5, when polls 1 to k-1 report the pre-operation
leader and poll k reports another leader, the action ends in success (exit
status 0) having made exactly k polls after the stand-down command, and no
further poll, as soon as its ticker has ticked k times. -/
theorem standDown_converges_at_poll (c : SrvClusterCmd) (env : StandDownEnv)
    (leader : String) (h : env.startsPolling c leader) (k : Nat) (hk1 : 1 ≤ k) (hk5 : k ≤ 5)
    (hsame : ∀ j, 1 ≤ j → j < k → (env.polls (j - 1)).reportsLeader leader)
    (hnew : (env.polls (k - 1)).reportsNewLeader leader) (ticks : Nat) (ht : k ≤ ticks) :
    (metaLeaderStandDownAction c env ticks).map (fun run => (run.result, run.calls)) =
      some (ActionResult.exited 0, callsBeforePolling c ++ List.replicate k Call.getJSI) := by
  obtain ⟨t, rfl⟩ : ∃ t, ticks = (k - 1) + (t + 1) := ⟨ticks - k, by omega⟩
  have hnot : ∀ j < k - 1, ¬ (env.polls j).reportsNewLeader leader := by
    intro j hj
    have := hsame (j + 1) (by omega) (by omega)
    rw [Nat.add_sub_cancel] at this
    exact not_new_of_same _ _ this
  rw [standDown_enters_loop c env leader h,
    pollLoop_converges leader (k - 1) t env.polls (by omega) hnot hnew]
  have hk : k - 1 + 1 = k := by omega
  simp [hk]

/-- Witness of C7: the spec's scenario, the new leader "S2" is reported from
the third poll on. -/
theorem standDown_converges_at_poll_witness :
    (metaLeaderStandDownAction exampleCmd envNewLeaderAtThird 3).map
        (fun run => (run.result, run.calls)) =
      some (ActionResult.exited 0,
        callsBeforePolling exampleCmd ++ List.replicate 3 Call.getJSI) :=
  standDown_converges_at_poll exampleCmd envNewLeaderAtThird "S1"
    ⟨rfl, rfl, by decide, by decide, rfl⟩ 3 (by decide) (by decide)
    (by decide) (by decide) 3 (by decide)

/-- Counterexample to C8: with the new leader first reported at poll 3 the
action succeeds 1500 ms after `start`, not 2 x 500 = 1000 ms after it. -/
theorem standDown_elapsed_counterexample :
    (metaLeaderStandDownAction exampleCmd envNewLeaderAtThird 3).map
        (fun run => (run.result, run.elapsedMs)) = some (ActionResult.exited 0, 1500) ∧
    (metaLeaderStandDownAction exampleCmd envNewLeaderAtThird 3).map
        (fun run => run.elapsedMs) ≠ some (2 * 500) := by
  decide

/-- C8, amended: with the 500 ms ticker and polls taken as instantaneous, when
the new leader is first reported at poll k (1 to 5) the time from `start` to
the success report is k x 500 ms, one interval for each poll made, the first
poll included. -/
theorem standDown_elapsed_on_success (c : SrvClusterCmd) (env : StandDownEnv)
    (leader : String) (h : env.startsPolling c leader) (k : Nat) (hk1 : 1 ≤ k) (hk5 : k ≤ 5)
    (hfirst : ∀ j, 1 ≤ j → j < k → ¬ (env.polls (j - 1)).reportsNewLeader leader)
    (hnew : (env.polls (k - 1)).reportsNewLeader leader) (ticks : Nat) (ht : k ≤ ticks) :
    (metaLeaderStandDownAction c env ticks).map (fun run => (run.result, run.elapsedMs)) =
      some (ActionResult.exited 0, k * 500) := by
  obtain ⟨t, rfl⟩ : ∃ t, ticks = (k - 1) + (t + 1) := ⟨ticks - k, by omega⟩
  have hnot : ∀ j < k - 1, ¬ (env.polls j).reportsNewLeader leader := by
    intro j hj
    have := hfirst (j + 1) (by omega) (by omega)
    rw [Nat.add_sub_cancel] at this
    exact this
  rw [standDown_enters_loop c env leader h,
    pollLoop_converges leader (k - 1) t env.polls (by omega) hnot hnew]
  have hk : k - 1 + 1 = k := by omega
  simp [hk, pollIntervalMs, Nat.mul_comm]

/-- Witness of C8, amended: the new leader is first reported at poll 3, and the
success report comes 3 x 500 ms after `start`. -/
theorem standDown_elapsed_on_success_witness :
    (metaLeaderStandDownAction exampleCmd envNewLeaderAtThird 3).map
        (fun run => (run.result, run.elapsedMs)) = some (ActionResult.exited 0, 3 * 500) :=
  standDown_elapsed_on_success exampleCmd envNewLeaderAtThird "S1"
    ⟨rfl, rfl, by decide, by decide, rfl⟩ 3 (by decide) (by decide)
    (by decide) (by decide) 3 (by decide)

/-- The outcome of the poll loop in terms of what `getJSI` returns for each
reply. -/
theorem pollBudget_by_outcome (c : SrvClusterCmd) (env : StandDownEnv)
    (leader : String) (h : env.startsPolling c leader) (ticks : Nat) (ht : 6 ≤ ticks) :
    ∃ run, metaLeaderStandDownAction c env ticks = some run ∧
      (run.result = ActionResult.exited 0 ↔
        ∃ k, k < 5 ∧ (env.polls k).reportsNewLeader leader) ∧
      (∀ k, k < 5 → (∀ j, j < k → ¬ (env.polls j).reportsNewLeader leader) →
        (env.polls k).reportsNewLeader leader →
        run.calls = callsBeforePolling c ++ List.replicate (k + 1) Call.getJSI) ∧
      (run.result ≠ ActionResult.exited 0 →
        run.result = timedOut ∧
        run.calls = callsBeforePolling c ++ List.replicate 5 Call.getJSI) ∧
      ((∀ j, j < 5 → (env.polls j).fails) →
        run.result = timedOut ∧
        run.calls = callsBeforePolling c ++ List.replicate 5 Call.getJSI) := by
  classical
  by_cases hex : ∃ k, k < 5 ∧ (env.polls k).reportsNewLeader leader
  · have hk := (Nat.find_spec hex).1
    have hnew := (Nat.find_spec hex).2
    have hmin : ∀ j, j < Nat.find hex → ¬ (env.polls j).reportsNewLeader leader := by
      intro j hj hn
      exact Nat.find_min hex hj ⟨by omega, hn⟩
    obtain ⟨t, ht'⟩ : ∃ t, ticks = Nat.find hex + (t + 1) := ⟨ticks - Nat.find hex - 1, by omega⟩
    have hrun := pollLoop_converges leader (Nat.find hex) t env.polls hk hmin hnew
    have hact : metaLeaderStandDownAction c env ticks =
        some { result := ActionResult.exited 0,
               calls := callsBeforePolling c ++ List.replicate (Nat.find hex + 1) Call.getJSI,
               elapsedMs := pollIntervalMs * (Nat.find hex + 1) } := by
      rw [standDown_enters_loop c env leader h, ht', hrun]
      rfl
    refine ⟨_, hact, ?_, ?_, ?_, ?_⟩
    · exact ⟨fun _ => hex, fun _ => rfl⟩
    · intro k hk' hbefore hknew
      have hle : Nat.find hex ≤ k := Nat.find_min' hex ⟨hk', hknew⟩
      have hge : k ≤ Nat.find hex := by
        by_contra hlt
        exact hbefore (Nat.find hex) (by omega) hnew
      have heq : Nat.find hex = k := by omega
      simp [heq]
    · intro hne
      exact absurd rfl hne
    · intro hfail
      exact absurd hnew (not_new_of_fails _ _ (hfail _ hk))
  · have hnot : ∀ j < 5, ¬ (env.polls j).reportsNewLeader leader :=
      fun j hj hn => hex ⟨j, hj, hn⟩
    obtain ⟨t, ht'⟩ : ∃ t, ticks = 5 + (t + 1) := ⟨ticks - 6, by omega⟩
    have hrun := pollLoop_times_out leader t env.polls hnot
    have hact : metaLeaderStandDownAction c env ticks =
        some { result := timedOut,
               calls := callsBeforePolling c ++ List.replicate 5 Call.getJSI,
               elapsedMs := pollIntervalMs * 6 } := by
      rw [standDown_enters_loop c env leader h, ht', hrun]
      rfl
    refine ⟨_, hact, ?_, ?_, ?_, ?_⟩
    · exact ⟨fun hres => absurd hres timedOut_ne_success, fun hk => absurd hk hex⟩
    · intro k hk' _ hknew
      exact absurd hknew (hnot k hk')
    · intro _
      exact ⟨rfl, rfl⟩
    · intro _
      exact ⟨rfl, rfl⟩

theorem reportsNewLeader_iff_info (r : Reply) (leader : String) :
    r.reportsNewLeader leader ↔ ∃ i, r = .info i ∧ i.Meta.Leader ≠ leader := by
  cases r <;> simp [Reply.reportsNewLeader, getJSI]

theorem fails_of_isFailure (r : Reply) (h : r.isFailure) : r.fails := by
  cases r <;> simp_all [Reply.isFailure, Reply.fails, getJSI]

theorem not_new_of_old_info (r : Reply) (leader : String)
    (h : ∃ i, r = .info i ∧ i.Meta.Leader = leader) : ¬ r.reportsNewLeader leader := by
  obtain ⟨i, hr, hl⟩ := h
  subst hr
  simp [Reply.reportsNewLeader, getJSI, hl]

/-- C9: a poll fails when its request fails (transport error), when the reply
is not decodable, or when it has no data (or data that does not decode), and
never when the cluster state is decoded. Such a poll neither ends the operation
nor is left out of the budget of 5 polls: for every sequence of poll replies,
once the ticker has ticked 6 times the action has ended; it has ended in
success exactly when one of the first 5 polls brings a cluster state whose
leader is not the pre-operation one, after as many polls as it takes to reach
the first such poll, the failed ones before it included; otherwise, and so
when the first 5 polls all fail, it has ended with the time-out error after
exactly 5 polls. -/
theorem standDown_failed_polls_use_budget (c : SrvClusterCmd) (env : StandDownEnv)
    (leader : String) (h : env.startsPolling c leader) (ticks : Nat) (ht : 6 ≤ ticks) :
    ((∀ e, (Reply.requestFailed e).isFailure) ∧ (∀ e, (Reply.undecodable e).isFailure) ∧
      Reply.noData.isFailure ∧ (∀ e, (Reply.undecodableData e).isFailure) ∧
      ∀ i, ¬ (Reply.info i).isFailure) ∧
    ∃ run, metaLeaderStandDownAction c env ticks = some run ∧
      (run.result = ActionResult.exited 0 ↔
        ∃ k, k < 5 ∧ ∃ i, env.polls k = .info i ∧ i.Meta.Leader ≠ leader) ∧
      (∀ k, k < 5 →
        (∀ j, j < k →
          (env.polls j).isFailure ∨ ∃ i, env.polls j = .info i ∧ i.Meta.Leader = leader) →
        (∃ i, env.polls k = .info i ∧ i.Meta.Leader ≠ leader) →
        run.result = ActionResult.exited 0 ∧
        run.calls = callsBeforePolling c ++ List.replicate (k + 1) Call.getJSI) ∧
      (run.result ≠ ActionResult.exited 0 →
        run.result = timedOut ∧
        run.calls = callsBeforePolling c ++ List.replicate 5 Call.getJSI) ∧
      ((∀ j, j < 5 → (env.polls j).isFailure) →
        run.result = timedOut ∧
        run.calls = callsBeforePolling c ++ List.replicate 5 Call.getJSI) := by
  refine ⟨⟨fun _ => trivial, fun _ => trivial, trivial, fun _ => trivial, fun _ h' => h'⟩, ?_⟩
  obtain ⟨run, hact, hiff, hcalls, hne, hfail⟩ := pollBudget_by_outcome c env leader h ticks ht
  have hex : (∃ k, k < 5 ∧ (env.polls k).reportsNewLeader leader) ↔
      ∃ k, k < 5 ∧ ∃ i, env.polls k = .info i ∧ i.Meta.Leader ≠ leader :=
    exists_congr (fun k => and_congr Iff.rfl (reportsNewLeader_iff_info _ _))
  refine ⟨run, hact, hiff.trans hex, ?_, hne, ?_⟩
  · intro k hk hbefore hnew
    have hnew' : (env.polls k).reportsNewLeader leader := (reportsNewLeader_iff_info _ _).2 hnew
    refine ⟨hiff.2 ⟨k, hk, hnew'⟩, hcalls k hk ?_ hnew'⟩
    intro j hj
    rcases hbefore j hj with hf | hold
    · exact not_new_of_fails _ _ (fails_of_isFailure _ hf)
    · exact not_new_of_old_info _ _ hold
  · intro hall
    exact hfail (fun j hj => fails_of_isFailure _ (hall j hj))

/-- Witness of C9: the first poll is a transport error, the second a reply
without data, the third brings the new leader "S2": success after 3 polls. -/
theorem standDown_failed_polls_use_budget_witness :
    envFailingThenNewLeader.polls 0 = .requestFailed "nats: timeout" ∧
    envFailingThenNewLeader.polls 1 = .noData ∧
    (metaLeaderStandDownAction exampleCmd envFailingThenNewLeader 6).map
        (fun run => (run.result, run.calls)) =
      some (ActionResult.exited 0,
        callsBeforePolling exampleCmd ++ List.replicate 3 Call.getJSI) := by
  obtain ⟨_, run, hact, _, hcalls, _, _⟩ :=
    standDown_failed_polls_use_budget exampleCmd envFailingThenNewLeader "S1"
      ⟨rfl, rfl, by decide, by decide, rfl⟩ 6 (by decide)
  have h3 := hcalls 2 (by decide)
    (by
      intro j hj
      have hj' : j = 0 ∨ j = 1 := by omega
      rcases hj' with rfl | rfl
      · exact Or.inl trivial
      · exact Or.inl trivial)
    ⟨{ Meta := { Leader := "S2",
                 Replicas := [⟨"S2", "id2", false⟩, ⟨"S3", "id3", false⟩] } }, rfl, by decide⟩
  refine ⟨rfl, rfl, ?_⟩
  rw [hact, Option.map_some', h3.1, h3.2]

/-! ## Theorems: the sample table -/

theorem mapGet_mapSet {β : Type} (m : GoMap β) (k k' : String) (v : β) :
    mapGet (mapSet m k v) k' = if k = k' then some v else mapGet m k' := by
  induction m with
  | nil => simp [mapSet, mapGet]
  | cons p rest ih =>
    obtain ⟨k0, v0⟩ := p
    by_cases h0 : k0 = k
    · subst h0
      by_cases h1 : k0 = k' <;> simp [mapSet, mapGet, h1]
    · by_cases h1 : k0 = k'
      · subst h1
        have h2 : ¬ k = k0 := fun h => h0 h.symm
        simp [mapSet, mapGet, h0, h2]
      · simp [mapSet, mapGet, h0, h1, ih]

theorem handle_sample_get (c : SrvWatchAccountCmd) (s : AccountNumConns) (t : Int)
    (acct : String) :
    mapGet (handle c (.sample s) t).accounts acct =
      if s.Account = acct then
        some (mapSet ((mapGet c.accounts s.Account).getD []) s.Server.ID s)
      else mapGet c.accounts acct := by
  cases hget : mapGet c.accounts s.Account with
  | none =>
    simp only [handle, hget, mapGet_mapSet, if_true, Option.getD_some]
    by_cases h : s.Account = acct
    · simp [h]
    · simp [h, mapGet_mapSet]
  | some inner =>
    simp only [handle, hget, mapGet_mapSet, Option.getD_some]

theorem handle_undecodable (c : SrvWatchAccountCmd) (e : String) (t : Int) :
    handle c (.undecodable e) t = c := rfl

theorem timeSince_gt_iff (now t : Int) :
    timeSince now t > 35 * second ↔ now - t > 35 * second := by
  unfold timeSince second maxDuration minDuration
  split
  · constructor <;> intro <;> omega
  · split
    · constructor <;> intro <;> omega
    · rfl

theorem totalStep_stale (now : Int) (acct : String) (acc : Nat × AccountStat)
    (entry : String × AccountNumConns) (h : 35 * second < now - entry.2.Server.Time) :
    totalStep now acct acc entry = acc := by
  unfold totalStep
  rw [if_pos ((timeSince_gt_iff _ _).2 h)]

theorem totalStep_fresh (now : Int) (acct : String) (acc : Nat × AccountStat)
    (entry : String × AccountNumConns) (h : Fresh now entry.2) :
    totalStep now acct acc entry = (acc.1 + 1, addStat acct acc.2 entry.2) := by
  unfold totalStep
  have hn : ¬ timeSince now entry.2.Server.Time > 35 * second := by
    rw [timeSince_gt_iff]
    unfold Fresh at h
    omega
  rw [if_neg hn]

theorem addStat_comm (acct : String) (t : AccountStat) (s e : AccountNumConns) :
    addStat acct (addStat acct t s) e = addStat acct (addStat acct t e) s := by
  simp [addStat, add_right_comm]

theorem foldl_totalStep_fresh (now : Int) (acct : String) (s : AccountNumConns)
    (post : GoMap AccountNumConns) :
    ∀ acc : Nat × AccountStat,
      List.foldl (totalStep now acct) (acc.1 + 1, addStat acct acc.2 s) post =
        ((List.foldl (totalStep now acct) acc post).1 + 1,
          addStat acct (List.foldl (totalStep now acct) acc post).2 s) := by
  induction post with
  | nil => intro acc; rfl
  | cons e rest ih =>
    intro acc
    by_cases hf : Fresh now e.2
    · simp only [List.foldl_cons, totalStep_fresh now acct _ e hf]
      rw [addStat_comm]
      exact ih (acc.1 + 1, addStat acct acc.2 e.2)
    · have hs : 35 * second < now - e.2.Server.Time := by
        unfold Fresh at hf
        omega
      simp only [List.foldl_cons, totalStep_stale now acct _ e hs]
      exact ih acc

/-- C4: for every table, account and instant `now`, take any stored sample
`s` of the account, the other samples being `pre` and `post`. When the server
timestamp of `s` is more than 35 seconds before `now`, `accountTotal` returns
what it returns without `s`: `s` adds nothing to any counter and is not
counted. When it is 35 seconds or less before `now` (35 included), the count
is one more and every counter is the counter without `s` plus that of `s`. -/
theorem accountTotal_staleness (c : SrvWatchAccountCmd) (now : Int) (acct id : String)
    (pre post : GoMap AccountNumConns) (s : AccountNumConns)
    (hget : mapGet c.accounts acct = some (pre ++ (id, s) :: post)) :
    (35 * second < now - s.Server.Time →
      accountTotal c now acct =
        ((sumStats now acct (pre ++ post)).1, some (sumStats now acct (pre ++ post)).2)) ∧
    (now - s.Server.Time ≤ 35 * second →
      ∃ total, accountTotal c now acct = ((sumStats now acct (pre ++ post)).1 + 1, some total) ∧
        total.Account = acct ∧
        total.Conns = (sumStats now acct (pre ++ post)).2.Conns + s.Conns ∧
        total.TotalConns = (sumStats now acct (pre ++ post)).2.TotalConns + s.TotalConns ∧
        total.LeafNodes = (sumStats now acct (pre ++ post)).2.LeafNodes + s.LeafNodes ∧
        total.NumSubs = (sumStats now acct (pre ++ post)).2.NumSubs + s.NumSubs ∧
        total.SlowConsumers =
          (sumStats now acct (pre ++ post)).2.SlowConsumers + s.SlowConsumers ∧
        total.Sent.Bytes = (sumStats now acct (pre ++ post)).2.Sent.Bytes + s.Sent.Bytes ∧
        total.Sent.Msgs = (sumStats now acct (pre ++ post)).2.Sent.Msgs + s.Sent.Msgs ∧
        total.Received.Bytes =
          (sumStats now acct (pre ++ post)).2.Received.Bytes + s.Received.Bytes ∧
        total.Received.Msgs =
          (sumStats now acct (pre ++ post)).2.Received.Msgs + s.Received.Msgs) := by
  constructor
  · intro hstale
    simp only [accountTotal, hget, sumStats, List.foldl_append, List.foldl_cons]
    rw [totalStep_stale now acct _ (id, s) hstale]
  · intro hfresh
    have hf : Fresh now ((id, s) : String × AccountNumConns).2 := hfresh
    refine ⟨addStat acct (sumStats now acct (pre ++ post)).2 s, ?_,
      rfl, rfl, rfl, rfl, rfl, rfl, rfl, rfl, rfl, rfl⟩
    simp only [accountTotal, hget, sumStats, List.foldl_append, List.foldl_cons]
    rw [totalStep_fresh now acct _ (id, s) hf, foldl_totalStep_fresh]

/-! ### The table after a sequence of messages -/

theorem latestSamples_cons (s : AccountNumConns) (rest : List AccountNumConns) :
    latestSamples (s :: rest) =
      if rest.any (fun r => decide (r.Server.ID = s.Server.ID)) then latestSamples rest
      else s :: latestSamples rest := rfl

theorem latestSamples_concat (ss : List AccountNumConns) (x : AccountNumConns) :
    latestSamples (ss ++ [x]) =
      (latestSamples ss).filter (fun s => decide (s.Server.ID ≠ x.Server.ID)) ++ [x] := by
  induction ss with
  | nil => simp [latestSamples]
  | cons s rest ih =>
    rw [List.cons_append, latestSamples_cons, latestSamples_cons, List.any_append, ih]
    by_cases hx : x.Server.ID = s.Server.ID
    · have hs : s.Server.ID = x.Server.ID := hx.symm
      by_cases hany : rest.any (fun r => decide (r.Server.ID = s.Server.ID)) = true
      · simp only [hany, Bool.true_or, if_true]
      · simp only [Bool.not_eq_true] at hany
        simp only [hany, Bool.false_or, List.any_cons, List.any_nil, Bool.or_false, hx,
          decide_True, if_true, Bool.false_eq_true, if_false, List.filter_cons, ne_eq,
          not_true_eq_false, decide_False]
    · have hs : ¬ s.Server.ID = x.Server.ID := fun h => hx h.symm
      by_cases hany : rest.any (fun r => decide (r.Server.ID = s.Server.ID)) = true
      · simp only [hany, Bool.true_or, if_true]
      · simp only [Bool.not_eq_true] at hany
        simp only [hany, Bool.false_or, List.any_cons, List.any_nil, Bool.or_false, hx,
          decide_False, Bool.false_eq_true, if_false, List.filter_cons, ne_eq, hs,
          not_false_eq_true, decide_True, if_true, List.cons_append]

theorem mem_keys_mapSet {β : Type} (m : GoMap β) (k : String) (v : β) (x : String)
    (hx : x ∈ (mapSet m k v).map Prod.fst) : x = k ∨ x ∈ m.map Prod.fst := by
  induction m with
  | nil => simp [mapSet] at hx; exact Or.inl hx
  | cons p rest ih =>
    obtain ⟨k0, v0⟩ := p
    by_cases h0 : k0 = k
    · simp [mapSet, h0] at hx
      rcases hx with h | h
      · exact Or.inl h
      · exact Or.inr (by simp; right; exact h)
    · simp only [mapSet, h0, if_false, List.map_cons, List.mem_cons] at hx
      rcases hx with h | h
      · exact Or.inr (by simp [h])
      · rcases ih h with h' | h'
        · exact Or.inl h'
        · exact Or.inr (List.mem_cons_of_mem _ h')

theorem nodup_keys_mapSet {β : Type} (m : GoMap β) (k : String) (v : β)
    (hnd : (m.map Prod.fst).Nodup) : ((mapSet m k v).map Prod.fst).Nodup := by
  induction m with
  | nil => simp [mapSet]
  | cons p rest ih =>
    obtain ⟨k0, v0⟩ := p
    simp only [List.map_cons, List.nodup_cons] at hnd
    by_cases h0 : k0 = k
    · subst h0
      simp only [mapSet, if_true, List.map_cons, List.nodup_cons]
      exact hnd
    · simp only [mapSet, h0, if_false, List.map_cons, List.nodup_cons]
      refine ⟨fun hmem => ?_, ih hnd.2⟩
      rcases mem_keys_mapSet rest k v k0 hmem with h | h
      · exact h0 h
      · exact hnd.1 h

theorem keys_are_ids_mapSet (m : GoMap AccountNumConns) (v : AccountNumConns)
    (hk : ∀ p ∈ m, p.1 = p.2.Server.ID) :
    ∀ p ∈ mapSet m v.Server.ID v, p.1 = p.2.Server.ID := by
  induction m with
  | nil => intro p hp; simp [mapSet] at hp; subst hp; rfl
  | cons q rest ih =>
    obtain ⟨k0, v0⟩ := q
    have hrest : ∀ p ∈ rest, p.1 = p.2.Server.ID := fun p hp => hk p (List.mem_cons_of_mem _ hp)
    intro p hp
    by_cases h0 : k0 = v.Server.ID
    · simp only [mapSet, h0, if_true, List.mem_cons] at hp
      rcases hp with h | h
      · subst h; rfl
      · exact hrest p h
    · simp only [mapSet, h0, if_false, List.mem_cons] at hp
      rcases hp with h | h
      · subst h; exact hk _ (List.mem_cons_self _ _)
      · exact ih hrest p h

theorem values_mapSet_perm (m : GoMap AccountNumConns) (v : AccountNumConns)
    (hk : ∀ p ∈ m, p.1 = p.2.Server.ID) (hnd : (m.map Prod.fst).Nodup) :
    ((mapSet m v.Server.ID v).map Prod.snd).Perm
      ((m.map Prod.snd).filter (fun s => decide (s.Server.ID ≠ v.Server.ID)) ++ [v]) := by
  induction m with
  | nil => simp [mapSet]
  | cons q rest ih =>
    obtain ⟨k0, v0⟩ := q
    have hrest : ∀ p ∈ rest, p.1 = p.2.Server.ID := fun p hp => hk p (List.mem_cons_of_mem _ hp)
    have hk0 : k0 = v0.Server.ID := hk (k0, v0) (List.mem_cons_self _ _)
    simp only [List.map_cons, List.nodup_cons] at hnd
    by_cases h0 : k0 = v.Server.ID
    · have hv0 : v0.Server.ID = v.Server.ID := by rw [← hk0]; exact h0
      have hkeep : (rest.map Prod.snd).filter (fun s => decide (s.Server.ID ≠ v.Server.ID)) =
          rest.map Prod.snd := by
        rw [List.filter_eq_self]
        intro s hs
        obtain ⟨p, hp, rfl⟩ := List.mem_map.1 hs
        have hne : p.2.Server.ID ≠ v.Server.ID := by
          intro heq
          apply hnd.1
          rw [h0, ← heq, ← hrest p hp]
          exact List.mem_map_of_mem _ hp
        simp [hne]
      simp only [mapSet, h0, if_true, List.map_cons, List.filter_cons, hv0, ne_eq,
        not_true_eq_false, decide_False, Bool.false_eq_true, if_false]
      simp only [ne_eq] at hkeep
      rw [hkeep]
      exact (List.perm_append_singleton v _).symm
    · have hv0 : ¬ v0.Server.ID = v.Server.ID := by rw [← hk0]; exact h0
      simp only [mapSet, h0, if_false, List.map_cons, List.filter_cons, hv0, ne_eq,
        not_false_eq_true, decide_True, if_true, List.cons_append]
      exact List.Perm.cons _ (by simpa using ih hrest hnd.2)

theorem latestSamples_ids (ss : List AccountNumConns) :
    (latestSamples ss).map (fun s => s.Server.ID) = (ss.map (fun s => s.Server.ID)).dedup := by
  induction ss with
  | nil => rfl
  | cons s rest ih =>
    by_cases hany : rest.any (fun r => decide (r.Server.ID = s.Server.ID)) = true
    · have hmem : s.Server.ID ∈ rest.map (fun s => s.Server.ID) := by
        obtain ⟨r, hr, hrs⟩ := List.any_eq_true.1 hany
        exact List.mem_map.2 ⟨r, hr, by simpa using hrs⟩
      simp only [latestSamples, hany, if_true, List.map_cons, List.dedup_cons_of_mem hmem, ih]
    · have hmem : s.Server.ID ∉ rest.map (fun s => s.Server.ID) := by
        intro hmem
        obtain ⟨r, hr, hrs⟩ := List.mem_map.1 hmem
        exact hany (List.any_eq_true.2 ⟨r, hr, by simpa using hrs⟩)
      simp only [Bool.not_eq_true] at hany
      rw [latestSamples_cons]
      simp only [hany, Bool.false_eq_true, if_false, List.map_cons,
        List.dedup_cons_of_not_mem hmem, ih]

theorem sumStats_cons_fresh (now : Int) (acct : String) (x : String × AccountNumConns)
    (rest : GoMap AccountNumConns) (hx : Fresh now x.2) :
    sumStats now acct (x :: rest) =
      ((sumStats now acct rest).1 + 1, addStat acct (sumStats now acct rest).2 x.2) := by
  unfold sumStats
  rw [List.foldl_cons, totalStep_fresh now acct _ x hx]
  exact foldl_totalStep_fresh now acct x.2 rest (0, AccountStat.zero)

theorem sumStats_all_fresh (now : Int) (acct : String) (m : GoMap AccountNumConns)
    (hfresh : ∀ p ∈ m, Fresh now p.2) :
    sumStats now acct m =
      (m.length,
        { elementwiseSum acct (m.map Prod.snd) with
          Account := if m = [] then "" else acct }) := by
  induction m with
  | nil => rfl
  | cons x rest ih =>
    have hx : Fresh now x.2 := hfresh x (List.mem_cons_self _ _)
    have hrest : ∀ p ∈ rest, Fresh now p.2 := fun p hp => hfresh p (List.mem_cons_of_mem _ hp)
    rw [sumStats_cons_fresh now acct x rest hx, ih hrest]
    simp [addStat, elementwiseSum, add_comm]

theorem elementwiseSum_perm (acct : String) (l₁ l₂ : List AccountNumConns) (h : l₁.Perm l₂) :
    elementwiseSum acct l₁ = elementwiseSum acct l₂ := by
  simp only [elementwiseSum, (h.map (fun s => s.Conns)).sum_eq,
    (h.map (fun s => s.LeafNodes)).sum_eq, (h.map (fun s => s.TotalConns)).sum_eq,
    (h.map (fun s => s.NumSubs)).sum_eq, (h.map (fun s => s.Sent.Msgs)).sum_eq,
    (h.map (fun s => s.Sent.Bytes)).sum_eq, (h.map (fun s => s.Received.Msgs)).sum_eq,
    (h.map (fun s => s.Received.Bytes)).sum_eq, (h.map (fun s => s.SlowConsumers)).sum_eq]

theorem handleAll_concat (c : SrvWatchAccountCmd) (msgs : List (Payload × Int))
    (msg : Payload × Int) :
    handleAll c (msgs ++ [msg]) = handle (handleAll c msgs) msg.1 msg.2 := by
  simp [handleAll, List.foldl_append]

theorem table_after_messages (c0 : SrvWatchAccountCmd) (h0 : c0.accounts = []) (acct : String)
    (msgs : List (Payload × Int)) :
    ∃ m : GoMap AccountNumConns,
      mapGet (handleAll c0 msgs).accounts acct =
        (if samplesFor acct msgs = [] then none else some m) ∧
      (m.map Prod.snd).Perm (latestSamples (samplesFor acct msgs)) ∧
      (∀ p ∈ m, p.1 = p.2.Server.ID) ∧ (m.map Prod.fst).Nodup := by
  induction msgs using List.reverseRecOn with
  | nil =>
    refine ⟨[], ?_, ?_, ?_, ?_⟩
    · simp [handleAll, samplesFor, h0, mapGet]
    · simp [samplesFor, latestSamples]
    · intro p hp; cases hp
    · simp
  | append_singleton msgs msg ih =>
    obtain ⟨m, hget, hperm, hkeys, hnd⟩ := ih
    obtain ⟨pl, t⟩ := msg
    rw [handleAll_concat]
    cases pl with
    | undecodable e =>
      have hss : samplesFor acct (msgs ++ [(Payload.undecodable e, t)]) = samplesFor acct msgs := by
        simp [samplesFor, List.filterMap_append]
      rw [hss]
      exact ⟨m, hget, hperm, hkeys, hnd⟩
    | sample s =>
      by_cases hacc : s.Account = acct
      · have hss : samplesFor acct (msgs ++ [(Payload.sample s, t)]) =
            samplesFor acct msgs ++ [s] := by
          simp [samplesFor, List.filterMap_append, hacc]
        have hinner : (mapGet (handleAll c0 msgs).accounts s.Account).getD [] = m := by
          rw [hacc, hget]
          by_cases hnil : samplesFor acct msgs = []
          · rw [hnil] at hperm
            have hm : m = [] := by
              have := List.perm_nil.1 (by simpa [latestSamples] using hperm)
              simpa using this
            simp [hnil, hm]
          · simp [hnil]
        refine ⟨mapSet m s.Server.ID s, ?_, ?_, ?_, ?_⟩
        · rw [handle_sample_get, hss, hinner]
          simp [hacc]
        · rw [hss, latestSamples_concat]
          exact (values_mapSet_perm m s hkeys hnd).trans ((hperm.filter _).append_right [s])
        · exact keys_are_ids_mapSet m s hkeys
        · exact nodup_keys_mapSet m s.Server.ID s hnd
      · have hss : samplesFor acct (msgs ++ [(Payload.sample s, t)]) = samplesFor acct msgs := by
          simp [samplesFor, List.filterMap_append, hacc]
        refine ⟨m, ?_, ?_, hkeys, hnd⟩
        · rw [handle_sample_get, hss]
          simp [hacc, hget]
        · rw [hss]; exact hperm

/-- C3: for every sequence of messages handled from the empty table (whatever
decodes, for whatever account) and every account `acct` with at least one
sample in it, when every stored sample of `acct` is fresh at `now`,
`accountTotal` returns as counters the element-wise sums (connections, total
connections, leaf nodes, subscriptions, slow consumers, sent and received
bytes and messages) of the latest sample of each distinct server, and as count
the number of distinct server identifiers. -/
theorem accountTotal_merges_latest (c0 : SrvWatchAccountCmd) (h0 : c0.accounts = [])
    (msgs : List (Payload × Int)) (now : Int) (acct : String)
    (hne : samplesFor acct msgs ≠ [])
    (hfresh : ∀ stats, mapGet (handleAll c0 msgs).accounts acct = some stats →
      ∀ p ∈ stats, Fresh now p.2) :
    accountTotal (handleAll c0 msgs) now acct =
      ((distinctServers (samplesFor acct msgs)).card,
        some (elementwiseSum acct (latestSamples (samplesFor acct msgs)))) := by
  obtain ⟨m, hget, hperm, _, _⟩ := table_after_messages c0 h0 acct msgs
  rw [if_neg hne] at hget
  have hlen : m.length = (distinctServers (samplesFor acct msgs)).card := by
    unfold distinctServers
    rw [List.card_toFinset, ← latestSamples_ids, List.length_map, ← hperm.length_eq,
      List.length_map]
  have hm : m ≠ [] := by
    intro hm
    rw [hm] at hperm
    have h1 : latestSamples (samplesFor acct msgs) = [] := List.nil_perm.1 (by simpa using hperm)
    have h2 := latestSamples_ids (samplesFor acct msgs)
    rw [h1] at h2
    have h3 := (List.dedup_eq_nil _).1 h2.symm
    exact hne (List.map_eq_nil_iff.1 h3)
  simp only [accountTotal, hget]
  rw [sumStats_all_fresh now acct m (hfresh m hget), if_neg hm, hlen,
    elementwiseSum_perm acct _ _ hperm]
  rfl

/-- Witness of C3: server "s1" reports twice and "s2" once on account "A"; at
40 s the two stored samples are fresh (the one of "s2" is exactly 35 s old). -/
theorem accountTotal_merges_latest_witness :
    accountTotal (handleAll (newWatchCmd "conns" 10) exampleMsgs) (40 * second) "A" =
      ((distinctServers (samplesFor "A" exampleMsgs)).card,
        some (elementwiseSum "A" (latestSamples (samplesFor "A" exampleMsgs)))) :=
  accountTotal_merges_latest (newWatchCmd "conns" 10) rfl exampleMsgs (40 * second) "A"
    (by decide)
    (by
      intro stats h
      have hs : mapGet (handleAll (newWatchCmd "conns" 10) exampleMsgs).accounts "A" =
          some [("s1", sampleOf "A" "s1" (30 * second) 4 9),
                ("s2", sampleOf "A" "s2" (5 * second) 1 1)] := by decide
      rw [hs] at h
      cases h
      decide)

/-- Witness of C4: in `exampleStore` the sample of "s2" is stamped 5 s; at 41 s
it is 36 s old and left out, at 40 s it is exactly 35 s old and counted. -/
theorem accountTotal_staleness_witness :
    accountTotal exampleStore (41 * second) "A" =
      ((sumStats (41 * second) "A" ([("s1", sampleOf "A" "s1" (30 * second) 4 9)] ++ [])).1,
        some (sumStats (41 * second) "A"
          ([("s1", sampleOf "A" "s1" (30 * second) 4 9)] ++ [])).2) ∧
    (accountTotal exampleStore (40 * second) "A").1 =
      (sumStats (40 * second) "A" ([("s1", sampleOf "A" "s1" (30 * second) 4 9)] ++ [])).1 + 1 :=
  ⟨(accountTotal_staleness exampleStore (41 * second) "A" "s2"
      [("s1", sampleOf "A" "s1" (30 * second) 4 9)] [] (sampleOf "A" "s2" (5 * second) 1 1)
      (by decide)).1 (by decide),
    by
      obtain ⟨total, h, _⟩ := (accountTotal_staleness exampleStore (40 * second) "A" "s2"
        [("s1", sampleOf "A" "s1" (30 * second) 4 9)] [] (sampleOf "A" "s2" (5 * second) 1 1)
        (by decide)).2 (by decide)
      rw [h]⟩

/-! ## Theorems: `redraw` -/

/-- C5, the code at the failing input: the only sample of account "A" is 36 s
old, and `redraw` still builds an entry for the account: a list of one
aggregated account, all zero and without a name, a heading counting 1 account,
and one row showing 0 servers. -/
theorem redraw_lists_all_stale_account :
    redraw storeOneSample (36 * second) =
      .ok { tc := .all 1, sortName := "Connections", lastMsg := 0,
            accounts := [AccountStat.zero],
            rows := [{ Account := "", Servers := 0, stat := AccountStat.zero }] } := by
  rfl

theorem accountLess_eq (sort : String) (ai aj : AccountStat) :
    accountLess sort ai aj =
      sortMultiSort (selected sort ai) (selected sort aj) ai.Conns aj.Conns := by
  unfold accountLess selected
  split_ifs <;> rfl

theorem accountLess_tie (sort : String) (a b : AccountStat)
    (heq : selected sort a = selected sort b) :
    accountLess sort a b = decide (a.Conns < b.Conns) := by
  rw [accountLess_eq]
  simp [sortMultiSort, heq]

theorem accountLess_asymm (sort : String) (a b : AccountStat)
    (h : accountLess sort a b = true) : accountLess sort b a = false := by
  rw [accountLess_eq] at h ⊢
  unfold sortMultiSort at h ⊢
  split_ifs at h ⊢ <;> simp at h ⊢ <;> omega

theorem accountLess_neg_trans (sort : String) (a b c : AccountStat)
    (hab : accountLess sort a b = false) (hbc : accountLess sort b c = false) :
    accountLess sort a c = false := by
  rw [accountLess_eq] at hab hbc ⊢
  unfold sortMultiSort at hab hbc ⊢
  split_ifs at hab hbc ⊢ <;> simp at hab hbc ⊢ <;> omega

theorem sink_perm {α : Type} (less : α → α → Bool) (x : α) (rev : List α) :
    (sink less x rev).Perm (x :: rev) := by
  induction rev with
  | nil => exact List.Perm.refl _
  | cons y rest ih =>
    unfold sink
    split
    · exact (List.Perm.cons y ih).trans (List.Perm.swap x y rest)
    · exact List.Perm.refl _

theorem sink_pairwise {α : Type} (less : α → α → Bool)
    (hasym : ∀ a b, less a b = true → less b a = false)
    (hneg : ∀ a b c, less a b = false → less b c = false → less a c = false)
    (x : α) (rev : List α) (h : rev.Pairwise (fun u v => less u v = false)) :
    (sink less x rev).Pairwise (fun u v => less u v = false) := by
  induction rev with
  | nil => simp [sink]
  | cons y rest ih =>
    rw [List.pairwise_cons] at h
    unfold sink
    split
    · rename_i hxy
      rw [List.pairwise_cons]
      refine ⟨fun w hw => ?_, ih h.2⟩
      rcases List.mem_cons.1 ((sink_perm less x rest).subset hw) with hwx | hwr
      · subst hwx; exact hasym _ _ hxy
      · exact h.1 w hwr
    · rename_i hxy
      have hxy' : less x y = false := by simpa using hxy
      rw [List.pairwise_cons]
      refine ⟨fun w hw => ?_, List.pairwise_cons.2 h⟩
      rcases List.mem_cons.1 hw with hwy | hwr
      · subst hwy; exact hxy'
      · exact hneg _ _ _ hxy' (h.1 w hwr)

theorem foldl_sink {α : Type} (less : α → α → Bool)
    (hasym : ∀ a b, less a b = true → less b a = false)
    (hneg : ∀ a b c, less a b = false → less b c = false → less a c = false)
    (xs : List α) :
    ∀ rev : List α, rev.Pairwise (fun u v => less u v = false) →
      (xs.foldl (fun rev x => sink less x rev) rev).Pairwise (fun u v => less u v = false) ∧
      (xs.foldl (fun rev x => sink less x rev) rev).Perm (xs ++ rev) := by
  induction xs with
  | nil => intro rev h; exact ⟨h, List.Perm.refl _⟩
  | cons x rest ih =>
    intro rev h
    obtain ⟨h1, h2⟩ := ih (sink less x rev) (sink_pairwise less hasym hneg x rev h)
    refine ⟨h1, h2.trans ?_⟩
    exact ((sink_perm less x rev).append_left rest).trans List.perm_middle

theorem sortSlice_sortedBy {α : Type} (less : α → α → Bool)
    (hasym : ∀ a b, less a b = true → less b a = false)
    (hneg : ∀ a b c, less a b = false → less b c = false → less a c = false)
    (xs : List α) : SortedBy less xs (sortSlice less xs) := by
  obtain ⟨h1, h2⟩ := foldl_sink less hasym hneg xs [] List.Pairwise.nil
  unfold SortedBy sortSlice
  refine ⟨(List.reverse_perm _).trans (by simpa using h2), ?_⟩
  rw [List.pairwise_reverse]
  exact h1

theorem tie_break_of_sortedBy (sort : String) (views out : List AccountStat)
    (hs : SortedBy (accountLess sort) views out) (i j : Nat) (a b : AccountStat)
    (hi : out[i]? = some a) (hj : out[j]? = some b)
    (heq : selected sort a = selected sort b) (hlt : a.Conns < b.Conns) : i < j := by
  obtain ⟨hil, hia⟩ := List.getElem?_eq_some.1 hi
  obtain ⟨hjl, hjb⟩ := List.getElem?_eq_some.1 hj
  by_contra hnot
  have hne : i ≠ j := by
    intro hij
    subst hij
    rw [hia] at hjb
    rw [hjb] at hlt
    exact lt_irrefl _ hlt
  have hji : j < i := by omega
  have hp := List.pairwise_iff_getElem.1 hs.2 j i hjl hil hji
  rw [hia, hjb, accountLess_tie sort a b heq] at hp
  simp at hp
  omega

theorem redraw_ok (c : SrvWatchAccountCmd) (now : Int) (frame : Frame)
    (h : redraw c now = .ok frame) :
    frame.accounts = sortSlice (accountLess c.sort) (collectTotals c now).1 ∧
    ∃ n, frame.rows = (frame.accounts.take n).map (fun account =>
      { Account := account.Account,
        Servers := (mapGet (collectTotals c now).2 account.Account).getD 0,
        stat := account }) := by
  unfold redraw at h
  simp only at h
  split at h
  · cases h
  · rename_i matched hm
    cases h
    refine ⟨rfl, ?_⟩
    split_ifs at hm with h1 h2
    · cases hm
      exact ⟨(sortSlice (accountLess c.sort) (collectTotals c now).1).length, by simp⟩
    · cases hm
      exact ⟨_, rfl⟩

/-- Counterexample to C10: sorting by subscriptions, accounts "A" (2
connections) and "B" (1 connection) both have 7 subscriptions, and `redraw`
places "B", the account with the lower connection count, first. -/
theorem redraw_tie_break_counterexample :
    (redraw storeTiedOnSubs (10 * second)).toOption.map
        (fun frame => frame.rows.map (fun r => (r.Account, r.stat.NumSubs, r.stat.Conns))) =
      some [("B", 7, 1), ("A", 7, 2)] := by
  decide

/-- C10, amended: for every sort key and every two rows of the table `redraw`
builds whose aggregated accounts have equal values on the selected counter and
different connection counts, the row of the account with the lower connection
count stands before the row of the account with the higher one. -/
theorem redraw_tie_break_lower_conns_first (c : SrvWatchAccountCmd) (now : Int) (frame : Frame)
    (h : redraw c now = .ok frame) (i j : Nat) (ra rb : Row)
    (hi : frame.rows[i]? = some ra) (hj : frame.rows[j]? = some rb)
    (heq : selected c.sort ra.stat = selected c.sort rb.stat)
    (hlt : ra.stat.Conns < rb.stat.Conns) : i < j := by
  obtain ⟨hacc, n, hrows⟩ := redraw_ok c now frame h
  have hsorted : SortedBy (accountLess c.sort) (collectTotals c now).1 frame.accounts := by
    rw [hacc]
    exact sortSlice_sortedBy _ (accountLess_asymm c.sort) (accountLess_neg_trans c.sort) _
  have hget : ∀ (k : Nat) (r : Row), frame.rows[k]? = some r → frame.accounts[k]? = some r.stat := by
    intro k r hk
    rw [hrows, List.getElem?_map, List.getElem?_take] at hk
    split_ifs at hk with hkn
    · cases hacck : frame.accounts[k]? with
      | none => rw [hacck] at hk; cases hk
      | some a => rw [hacck] at hk; cases hk; rfl
    · cases hk
  exact tie_break_of_sortedBy c.sort _ _ hsorted i j ra.stat rb.stat (hget i ra hi) (hget j rb hj)
    heq hlt

/-- Witness of C10, amended: in the frame built from `storeTiedOnSubs`, row 0
is "B" (1 connection) and row 1 is "A" (2 connections), both with 7
subscriptions. -/
theorem redraw_tie_break_lower_conns_first_witness :
    redraw storeTiedOnSubs (10 * second) = .ok frameTiedOnSubs ∧
    frameTiedOnSubs.rows[0]? =
      some { Account := "B", Servers := 1, stat := (sampleOf "B" "s1" 0 1 7).toAccountStat } ∧
    frameTiedOnSubs.rows[1]? =
      some { Account := "A", Servers := 1, stat := (sampleOf "A" "s1" 0 2 7).toAccountStat } ∧
    0 < 1 :=
  ⟨by rfl, by rfl, by rfl,
    redraw_tie_break_lower_conns_first storeTiedOnSubs (10 * second) frameTiedOnSubs
      (by rfl) 0 1
      { Account := "B", Servers := 1, stat := (sampleOf "B" "s1" 0 1 7).toAccountStat }
      { Account := "A", Servers := 1, stat := (sampleOf "A" "s1" 0 2 7).toAccountStat }
      (by rfl) (by rfl) (by decide) (by decide)⟩

/-! ## Theorems: what the validation yields -/

theorem findReplica_error (peer : String) (replicas : List PeerInfo) (st : Found) (e : String)
    (h : findReplica peer replicas st = .error e) :
    e = "can only remove offline nodes" ∧
      ∃ r ∈ replicas, r.matchesTarget peer ∧ r.Offline = false := by
  induction replicas generalizing st with
  | nil => simp [findReplica] at h
  | cons x xs ih =>
    unfold findReplica at h
    split at h
    · rename_i hm
      split at h
      · rename_i hoff
        cases h
        exact ⟨rfl, x, List.mem_cons_self _ _, hm, by simpa using hoff⟩
      · obtain ⟨he, r, hr, hrm, hro⟩ := ih _ h
        exact ⟨he, r, List.mem_cons_of_mem _ hr, hrm, hro⟩
    · obtain ⟨he, r, hr, hrm, hro⟩ := ih _ h
      exact ⟨he, r, List.mem_cons_of_mem _ hr, hrm, hro⟩

theorem findReplica_ok (peer : String) (replicas : List PeerInfo) (st st' : Found)
    (h : findReplica peer replicas st = .ok st') :
    (∀ r ∈ replicas, r.matchesTarget peer → r.Offline = true) ∧
    (((∀ r ∈ replicas, ¬ r.matchesTarget peer) ∧ st' = st) ∨
      ∃ r ∈ replicas, r.matchesTarget peer ∧ r.Offline = true ∧
        st' = { found := true, foundName := r.Name, foundID := r.Peer }) := by
  induction replicas generalizing st with
  | nil =>
    simp only [findReplica, Except.ok.injEq] at h
    exact ⟨fun r hr => (by cases hr), Or.inl ⟨fun r hr => (by cases hr), h.symm⟩⟩
  | cons x xs ih =>
    unfold findReplica at h
    split at h
    · rename_i hm
      split at h
      · cases h
      · rename_i hoff
        have hxoff : x.Offline = true := by simpa using hoff
        obtain ⟨hall, hcase⟩ := ih _ h
        refine ⟨?_, ?_⟩
        · intro r hr hrm
          rcases List.mem_cons.1 hr with rfl | hr'
          · exact hxoff
          · exact hall r hr' hrm
        · rcases hcase with ⟨_, hst⟩ | ⟨r, hr, hrm, hro, hst⟩
          · exact Or.inr ⟨x, List.mem_cons_self _ _, hm, hxoff, hst⟩
          · exact Or.inr ⟨r, List.mem_cons_of_mem _ hr, hrm, hro, hst⟩
    · rename_i hm
      obtain ⟨hall, hcase⟩ := ih _ h
      refine ⟨?_, ?_⟩
      · intro r hr hrm
        rcases List.mem_cons.1 hr with rfl | hr'
        · exact absurd hrm hm
        · exact hall r hr' hrm
      · rcases hcase with ⟨hnone, hst⟩ | ⟨r, hr, hrm, hro, hst⟩
        · refine Or.inl ⟨?_, hst⟩
          intro r hr
          rcases List.mem_cons.1 hr with rfl | hr'
          · exact hm
          · exact hnone r hr'
        · exact Or.inr ⟨r, List.mem_cons_of_mem _ hr, hrm, hro, hst⟩

theorem not_found_ne_not_offline (peer : String) :
    "did not find a replica named " ++ peer ≠ "can only remove offline nodes" := by
  intro h
  have h' := congrArg (fun s => s.data.head?) h
  simp [String.data_append] at h'

/-- C16: the validation fails with the error "did not find a replica named"
followed by the target exactly when no replica of the snapshot has the target
as its name or as its identifier. -/
theorem validatePeer_not_found_iff (peer : String) (replicas : List PeerInfo) :
    validatePeer peer replicas = .error ("did not find a replica named " ++ peer) ↔
      ∀ r ∈ replicas, ¬ (r.Name = peer ∨ r.Peer = peer) := by
  constructor
  · intro h r hr hm
    unfold validatePeer at h
    cases hf : findReplica peer replicas { found := false, foundName := "", foundID := "" } with
    | error e =>
      rw [hf] at h
      simp only [Except.error.injEq] at h
      have he := (findReplica_error peer replicas _ e hf).1
      rw [he] at h
      exact not_found_ne_not_offline peer h.symm
    | ok st' =>
      rw [hf] at h
      rcases (findReplica_ok peer replicas _ st' hf).2 with ⟨hnone, _⟩ | ⟨r', _, _, _, hst⟩
      · exact hnone r hr hm
      · rw [hst] at h
        simp at h
  · intro h
    exact validatePeer_unknown peer replicas h

/-- C17: when the validation succeeds, the pair it yields is the name and the
identifier of one replica of the snapshot, that replica has the target as its
name or as its identifier, and it is offline. -/
theorem validatePeer_yields_offline_match (peer name id : String) (replicas : List PeerInfo)
    (h : validatePeer peer replicas = .ok (name, id)) :
    ∃ r ∈ replicas, r.Name = name ∧ r.Peer = id ∧ (r.Name = peer ∨ r.Peer = peer) ∧
      r.Offline = true := by
  unfold validatePeer at h
  cases hf : findReplica peer replicas { found := false, foundName := "", foundID := "" } with
  | error e => rw [hf] at h; cases h
  | ok st' =>
    rw [hf] at h
    rcases (findReplica_ok peer replicas _ st' hf).2 with ⟨_, hst⟩ | ⟨r, hr, hrm, hro, hst⟩
    · rw [hst] at h
      simp at h
    · rw [hst] at h
      simp only [Bool.not_true, Bool.false_eq_true, if_false, Except.ok.injEq,
        Prod.mk.injEq] at h
      exact ⟨r, hr, h.1, h.2, hrm, hro⟩

/-- Witness of C17: the target "n1" matches an offline replica by name and
another by identifier; the pair yielded is that of the replica "n3" whose
identifier is "n1". -/
theorem validatePeer_yields_offline_match_witness :
    validatePeer "n1" snapshotTwoMatches = .ok ("n3", "n1") ∧
    ∃ r ∈ snapshotTwoMatches, r.Name = "n3" ∧ r.Peer = "n1" ∧ (r.Name = "n1" ∨ r.Peer = "n1") ∧
      r.Offline = true :=
  ⟨by rfl, validatePeer_yields_offline_match "n1" "n3" "n1" snapshotTwoMatches (by rfl)⟩

/-! ## Theorems: what `handle` changes -/

theorem sampleAt_handle_same (c : SrvWatchAccountCmd) (x : AccountNumConns) (t : Int) :
    sampleAt (handle c (.sample x) t) x.Account x.Server.ID = some x := by
  unfold sampleAt
  rw [handle_sample_get]
  simp [mapGet_mapSet]

theorem sampleAt_handle_other (c : SrvWatchAccountCmd) (x : AccountNumConns) (t : Int)
    (acct server : String) (hne : ¬ (acct = x.Account ∧ server = x.Server.ID)) :
    sampleAt (handle c (.sample x) t) acct server = sampleAt c acct server := by
  unfold sampleAt
  rw [handle_sample_get]
  by_cases ha : x.Account = acct
  · subst ha
    have hs : ¬ x.Server.ID = server := fun h => hne ⟨rfl, h.symm⟩
    cases hget : mapGet c.accounts x.Account with
    | none => simp [mapGet_mapSet, hs, mapGet]
    | some stats => simp [mapGet_mapSet, hs]
  · simp [ha]

/-- C19: `handle` on a message that decodes to the sample `x` leaves the table
with `x` itself at the pair (account of `x`, server of `x`), whatever sample
was there before, and with the entry of every other pair (account, server) as
it was. -/
theorem handle_replaces_only_its_pair (c : SrvWatchAccountCmd) (x : AccountNumConns) (t : Int) :
    sampleAt (handle c (.sample x) t) x.Account x.Server.ID = some x ∧
    ∀ acct server, ¬ (acct = x.Account ∧ server = x.Server.ID) →
      sampleAt (handle c (.sample x) t) acct server = sampleAt c acct server :=
  ⟨sampleAt_handle_same c x t, fun acct server hne => sampleAt_handle_other c x t acct server hne⟩

/-- Witness of C19: in `exampleStore` a new sample of ("A", "s1") replaces the
stored one and leaves the sample of ("A", "s2") as it was. -/
theorem handle_replaces_only_its_pair_witness :
    sampleAt (handle exampleStore (.sample (sampleOf "A" "s1" (60 * second) 1 1)) (60 * second))
        "A" "s2" = sampleAt exampleStore "A" "s2" :=
  (handle_replaces_only_its_pair exampleStore (sampleOf "A" "s1" (60 * second) 1 1)
    (60 * second)).2 "A" "s2" (by decide)

theorem handleAll_filter_isSample (msgs : List (Payload × Int)) :
    ∀ c : SrvWatchAccountCmd,
      handleAll c msgs = handleAll c (msgs.filter (fun m => m.1.isSample)) := by
  induction msgs with
  | nil => intro c; rfl
  | cons m rest ih =>
    intro c
    obtain ⟨pl, t⟩ := m
    cases pl with
    | undecodable e =>
      simp only [handleAll, List.foldl_cons, handle_undecodable, List.filter_cons,
        Payload.isSample, Bool.false_eq_true, if_false]
      exact ih c
    | sample x =>
      simp only [handleAll, List.foldl_cons, List.filter_cons, Payload.isSample, if_true]
      exact ih _

/-- C20: `handle` on a message whose payload fails to decode returns the
receiver as it was, sample table and last-message time included, and has no
error to return; so a sequence of messages leaves the state that the same
sequence without its undecodable messages leaves. -/
theorem handle_drops_undecodable (c : SrvWatchAccountCmd) :
    (∀ (e : String) (t : Int),
      handle c (.undecodable e) t = c ∧
      (handle c (.undecodable e) t).accounts = c.accounts ∧
      (handle c (.undecodable e) t).lastMsg = c.lastMsg) ∧
    ∀ msgs : List (Payload × Int),
      handleAll c msgs = handleAll c (msgs.filter (fun m => m.1.isSample)) :=
  ⟨fun _ _ => ⟨rfl, rfl, rfl⟩, fun msgs => handleAll_filter_isSample msgs c⟩

/-! ## Theorems: a fresh sample after a stale one -/

theorem mapSet_at {β : Type} (pre post : GoMap β) (k : String) (old v : β)
    (hk : k ∉ pre.map Prod.fst) :
    mapSet (pre ++ (k, old) :: post) k v = pre ++ (k, v) :: post := by
  induction pre with
  | nil => simp [mapSet]
  | cons p rest ih =>
    obtain ⟨k0, v0⟩ := p
    simp only [List.map_cons, List.mem_cons, not_or] at hk
    have h0 : ¬ k0 = k := fun h => hk.1 h.symm
    rw [List.cons_append]
    simp only [mapSet, h0, if_false]
    exact congrArg _ (ih hk.2)

theorem sumStats_skip_stale (now : Int) (acct id : String) (pre post : GoMap AccountNumConns)
    (s : AccountNumConns) (hs : 35 * second < now - s.Server.Time) :
    sumStats now acct (pre ++ (id, s) :: post) = sumStats now acct (pre ++ post) := by
  simp only [sumStats, List.foldl_append, List.foldl_cons]
  rw [totalStep_stale now acct _ (id, s) hs]

theorem sumStats_add_fresh (now : Int) (acct id : String) (pre post : GoMap AccountNumConns)
    (s : AccountNumConns) (hs : Fresh now s) :
    sumStats now acct (pre ++ (id, s) :: post) =
      ((sumStats now acct (pre ++ post)).1 + 1,
        addStat acct (sumStats now acct (pre ++ post)).2 s) := by
  simp only [sumStats, List.foldl_append, List.foldl_cons]
  rw [totalStep_fresh now acct _ (id, s) hs, foldl_totalStep_fresh]

/-- C18: take a table whose sample for the pair (account of `x`, server of
`x`) is `old`, more than 35 seconds old at `now`, the other samples of the
account being `pre` and `post` (no entry of `pre` is under the server of `x`:
a Go map has one entry for a key), and a sample `x` that is fresh at `now`. Before
`x` is handled `accountTotal` is the total of the other samples alone; right
after `handle` of `x`, with nothing else done to the table, the count is one
more and every counter is that of the others plus that of `x`. -/
theorem fresh_sample_restores_contribution (c : SrvWatchAccountCmd) (now t : Int)
    (pre post : GoMap AccountNumConns) (old x : AccountNumConns)
    (hget : mapGet c.accounts x.Account = some (pre ++ (x.Server.ID, old) :: post))
    (hkey : x.Server.ID ∉ pre.map Prod.fst)
    (hstale : 35 * second < now - old.Server.Time)
    (hfresh : now - x.Server.Time ≤ 35 * second) :
    accountTotal c now x.Account =
      ((sumStats now x.Account (pre ++ post)).1,
        some (sumStats now x.Account (pre ++ post)).2) ∧
    ∃ total,
      accountTotal (handle c (.sample x) t) now x.Account =
        ((sumStats now x.Account (pre ++ post)).1 + 1, some total) ∧
      total.Account = x.Account ∧
      total.Conns = (sumStats now x.Account (pre ++ post)).2.Conns + x.Conns ∧
      total.TotalConns = (sumStats now x.Account (pre ++ post)).2.TotalConns + x.TotalConns ∧
      total.LeafNodes = (sumStats now x.Account (pre ++ post)).2.LeafNodes + x.LeafNodes ∧
      total.NumSubs = (sumStats now x.Account (pre ++ post)).2.NumSubs + x.NumSubs ∧
      total.SlowConsumers =
        (sumStats now x.Account (pre ++ post)).2.SlowConsumers + x.SlowConsumers ∧
      total.Sent.Bytes = (sumStats now x.Account (pre ++ post)).2.Sent.Bytes + x.Sent.Bytes ∧
      total.Sent.Msgs = (sumStats now x.Account (pre ++ post)).2.Sent.Msgs + x.Sent.Msgs ∧
      total.Received.Bytes =
        (sumStats now x.Account (pre ++ post)).2.Received.Bytes + x.Received.Bytes ∧
      total.Received.Msgs =
        (sumStats now x.Account (pre ++ post)).2.Received.Msgs + x.Received.Msgs := by
  constructor
  · simp only [accountTotal, hget]
    rw [sumStats_skip_stale now x.Account x.Server.ID pre post old hstale]
  · refine ⟨addStat x.Account (sumStats now x.Account (pre ++ post)).2 x, ?_,
      rfl, rfl, rfl, rfl, rfl, rfl, rfl, rfl, rfl, rfl⟩
    have hnew : mapGet (handle c (.sample x) t).accounts x.Account =
        some (pre ++ (x.Server.ID, x) :: post) := by
      rw [handle_sample_get, if_pos rfl, hget, Option.getD_some, mapSet_at pre post _ old x hkey]
    simp only [accountTotal, hnew]
    rw [sumStats_add_fresh now x.Account x.Server.ID pre post x hfresh]

/-- Witness of C18: in `exampleStore` the sample of ("A", "s2") is stamped 5 s;
at 60 s it is stale, and a sample of ("A", "s2") stamped 58 s is handled. -/
theorem fresh_sample_restores_contribution_witness :
    accountTotal exampleStore (60 * second) "A" =
      ((sumStats (60 * second) "A" ([("s1", sampleOf "A" "s1" (30 * second) 4 9)] ++ [])).1,
        some (sumStats (60 * second) "A"
          ([("s1", sampleOf "A" "s1" (30 * second) 4 9)] ++ [])).2) ∧
    (accountTotal (handle exampleStore (.sample (sampleOf "A" "s2" (58 * second) 6 6))
        (58 * second)) (60 * second) "A").1 =
      (sumStats (60 * second) "A" ([("s1", sampleOf "A" "s1" (30 * second) 4 9)] ++ [])).1 + 1 := by
  have h := fresh_sample_restores_contribution exampleStore (60 * second) (58 * second)
    [("s1", sampleOf "A" "s1" (30 * second) 4 9)] [] (sampleOf "A" "s2" (5 * second) 1 1)
    (sampleOf "A" "s2" (58 * second) 6 6) (by decide) (by decide) (by decide) (by decide)
  obtain ⟨h1, total, h2, _⟩ := h
  exact ⟨h1, congrArg Prod.fst h2⟩

/-! ## Theorems: the order and the rows of `redraw` -/

theorem accountLess_sortedBy (sort : String) (views : List AccountStat) :
    SortedBy (accountLess sort) views (sortSlice (accountLess sort) views) :=
  sortSlice_sortedBy _ (accountLess_asymm sort) (accountLess_neg_trans sort) views

theorem selected_le_of_not_less (sort : String) (a b : AccountStat)
    (h : accountLess sort b a = false) : selected sort b ≤ selected sort a := by
  rw [accountLess_eq] at h
  unfold sortMultiSort at h
  split_ifs at h with heq
  · omega
  · simp at h
    exact h

theorem selected_keys (a : AccountStat) :
    selected "conns" a = a.Conns ∧ selected "subs" a = a.NumSubs ∧
    selected "slow" a = a.SlowConsumers ∧ selected "sentb" a = a.Sent.Bytes ∧
    selected "sentm" a = a.Sent.Msgs ∧ selected "recvb" a = a.Received.Bytes ∧
    selected "recvm" a = a.Received.Msgs := by
  refine ⟨?_, ?_, ?_, ?_, ?_, ?_, ?_⟩ <;> simp [selected]

/-- C11: the list `redraw` has after its sort is a permutation of the
aggregated accounts it collected, and along it the counter the sort key selects
never increases; for the seven keys conns, subs, slow, sentb, sentm, recvb and
recvm that counter is connections, subscriptions, slow consumers, sent bytes,
sent messages, received bytes and received messages. -/
theorem redraw_sorts_descending (c : SrvWatchAccountCmd) (now : Int) (frame : Frame)
    (h : redraw c now = .ok frame) :
    frame.accounts.Perm (collectTotals c now).1 ∧
    frame.accounts.Pairwise (fun a b => selected c.sort b ≤ selected c.sort a) ∧
    ∀ a : AccountStat,
      selected "conns" a = a.Conns ∧ selected "subs" a = a.NumSubs ∧
      selected "slow" a = a.SlowConsumers ∧ selected "sentb" a = a.Sent.Bytes ∧
      selected "sentm" a = a.Sent.Msgs ∧ selected "recvb" a = a.Received.Bytes ∧
      selected "recvm" a = a.Received.Msgs := by
  obtain ⟨hacc, _⟩ := redraw_ok c now frame h
  have hs := accountLess_sortedBy c.sort (collectTotals c now).1
  rw [← hacc] at hs
  exact ⟨hs.1, hs.2.imp (fun hab => selected_le_of_not_less c.sort _ _ hab), selected_keys⟩

/-- Witness of C11: the frame built from `storeTiedOnSubs`, sorted by
subscriptions. -/
theorem redraw_sorts_descending_witness :
    frameTiedOnSubs.accounts.Perm (collectTotals storeTiedOnSubs (10 * second)).1 ∧
    frameTiedOnSubs.accounts.Pairwise
      (fun a b => selected storeTiedOnSubs.sort b ≤ selected storeTiedOnSubs.sort a) ∧
    ∀ a : AccountStat,
      selected "conns" a = a.Conns ∧ selected "subs" a = a.NumSubs ∧
      selected "slow" a = a.SlowConsumers ∧ selected "sentb" a = a.Sent.Bytes ∧
      selected "sentm" a = a.Sent.Msgs ∧ selected "recvb" a = a.Received.Bytes ∧
      selected "recvm" a = a.Received.Msgs :=
  redraw_sorts_descending storeTiedOnSubs (10 * second) frameTiedOnSubs (by rfl)

theorem redraw_of_nonneg (c : SrvWatchAccountCmd) (now : Int) (h0 : 0 ≤ c.topCount) :
    ∃ frame, redraw c now = .ok frame ∧
      frame.accounts = sortSlice (accountLess c.sort) (collectTotals c now).1 ∧
      (frame.rows.length : Int) = min c.topCount (collectTotals c now).1.length ∧
      frame.selectedAccounts = frame.accounts.take frame.rows.length := by
  have hlen : (sortSlice (accountLess c.sort) (collectTotals c now).1).length =
      (collectTotals c now).1.length :=
    (accountLess_sortedBy c.sort (collectTotals c now).1).1.length_eq
  by_cases hlt : ((sortSlice (accountLess c.sort) (collectTotals c now).1).length : Int) <
      c.topCount
  · have hred : redraw c now = .ok
        { tc :=
            if ((sortSlice (accountLess c.sort) (collectTotals c now).1).length : Int) >
                c.topCount then
              TopLabel.limited c.topCount
                (sortSlice (accountLess c.sort) (collectTotals c now).1).length
            else TopLabel.all (sortSlice (accountLess c.sort) (collectTotals c now).1).length,
          sortName := (mapGet c.sortNames c.sort).getD "",
          lastMsg := c.lastMsg,
          accounts := sortSlice (accountLess c.sort) (collectTotals c now).1,
          rows := (sortSlice (accountLess c.sort) (collectTotals c now).1).map (fun account =>
            { Account := account.Account,
              Servers := (mapGet (collectTotals c now).2 account.Account).getD 0,
              stat := account }) } := by
      simp only [redraw, hlt, if_true]
    refine ⟨_, hred, rfl, ?_, ?_⟩
    · simp only [List.length_map]
      rw [hlen] at hlt ⊢
      omega
    · simp only [Frame.selectedAccounts, List.map_map, List.length_map, List.take_length]
      exact List.map_id _
  · have hneg : ¬ c.topCount < 0 := by omega
    have hred : redraw c now = .ok
        { tc :=
            if ((sortSlice (accountLess c.sort) (collectTotals c now).1).length : Int) >
                c.topCount then
              TopLabel.limited c.topCount
                (sortSlice (accountLess c.sort) (collectTotals c now).1).length
            else TopLabel.all (sortSlice (accountLess c.sort) (collectTotals c now).1).length,
          sortName := (mapGet c.sortNames c.sort).getD "",
          lastMsg := c.lastMsg,
          accounts := sortSlice (accountLess c.sort) (collectTotals c now).1,
          rows := ((sortSlice (accountLess c.sort) (collectTotals c now).1).take
              c.topCount.toNat).map (fun account =>
            { Account := account.Account,
              Servers := (mapGet (collectTotals c now).2 account.Account).getD 0,
              stat := account }) } := by
      simp only [redraw, hlt, hneg, if_false]
    refine ⟨_, hred, rfl, ?_, ?_⟩
    · simp only [List.length_map, List.length_take]
      rw [hlen] at hlt ⊢
      have := Int.toNat_of_nonneg h0
      omega
    · have hle : c.topCount.toNat ≤
          (sortSlice (accountLess c.sort) (collectTotals c now).1).length := by
        have := Int.toNat_of_nonneg h0
        omega
      simp only [Frame.selectedAccounts, List.map_map, List.length_map, List.length_take,
        Nat.min_eq_left hle]
      exact List.map_id _

/-- C13: for every table, sort key and limit, the limit being a number of
rows and so not negative, `redraw` selects rows that number at most the limit
and exactly the minimum of the limit and the number of aggregated accounts,
and they are the first that many elements of the sorted list, in its order. -/
theorem redraw_truncates (c : SrvWatchAccountCmd) (now : Int) (h0 : 0 ≤ c.topCount) :
    ∃ frame, redraw c now = .ok frame ∧
      (frame.rows.length : Int) ≤ c.topCount ∧
      (frame.rows.length : Int) = min c.topCount (collectTotals c now).1.length ∧
      frame.selectedAccounts =
        (sortSlice (accountLess c.sort) (collectTotals c now).1).take frame.rows.length := by
  obtain ⟨frame, hred, hacc, hlen, hsel⟩ := redraw_of_nonneg c now h0
  refine ⟨frame, hred, ?_, hlen, ?_⟩
  · omega
  · rw [← hacc]
    exact hsel

/-- Witness of C13: with the limit 1, accounts "A" and "B" are aggregated and
one row is selected. -/
theorem redraw_truncates_witness :
    ∃ frame, redraw storeLimitOne (40 * second) = .ok frame ∧
      (frame.rows.length : Int) ≤ storeLimitOne.topCount ∧
      (frame.rows.length : Int) =
        min storeLimitOne.topCount (collectTotals storeLimitOne (40 * second)).1.length ∧
      frame.selectedAccounts =
        (sortSlice (accountLess storeLimitOne.sort)
          (collectTotals storeLimitOne (40 * second)).1).take frame.rows.length :=
  redraw_truncates storeLimitOne (40 * second) (by decide)

/-- C14, the code at the failing input: with `--number 5` on a terminal of 6
rows the limit derivation returns no error and the limit it leaves is -2:
the test `topCount < 1` comes before the limit is cut down to `h - 8`. -/
theorem effectiveTopCount_below_one :
    effectiveTopCount 5 6 none = .ok (-2) := by
  rfl

/-- C15, the code at the failing input: with the limit -2 `redraw` does not
select an empty list of rows, its slice expression `accounts[:c.topCount]`
panics; with the limit 0 it selects no rows. -/
theorem redraw_negative_limit_panics :
    redraw storeNegativeLimit (10 * second) = .error "slice bounds out of range" ∧
    (redraw { storeNegativeLimit with topCount := 0 } (10 * second)).toOption.map
      (fun frame => frame.rows) = some [] := by
  constructor
  · rfl
  · rfl

/-! ## Theorems: what the order depends on -/

theorem map_eq_of_inj_on {α β : Type} (f : α → β) :
    ∀ l₁ l₂ : List α, l₁.map f = l₂.map f →
      (∀ a ∈ l₁, ∀ b ∈ l₂, f a = f b → a = b) → l₁ = l₂ := by
  intro l₁
  induction l₁ with
  | nil =>
    intro l₂ h _
    cases l₂ with
    | nil => rfl
    | cons b bs => simp at h
  | cons a as ih =>
    intro l₂ h hinj
    cases l₂ with
    | nil => simp at h
    | cons b bs =>
      simp only [List.map_cons, List.cons.injEq] at h
      have hab : a = b := hinj a (List.mem_cons_self _ _) b (List.mem_cons_self _ _) h.1
      have hrest : as = bs :=
        ih bs h.2 (fun x hx y hy => hinj x (List.mem_cons_of_mem _ hx) y (List.mem_cons_of_mem _ hy))
      rw [hab, hrest]

theorem sortedBy_rankKeys (sort : String) (xs ys out₁ out₂ : List AccountStat)
    (hp : xs.Perm ys) (h₁ : SortedBy (accountLess sort) xs out₁)
    (h₂ : SortedBy (accountLess sort) ys out₂) :
    out₁.map (rankKey sort) = out₂.map (rankKey sort) := by
  haveI : IsAntisymm (Int × Int) (fun p q => sortMultiSort q.1 p.1 q.2 p.2 = false) :=
    ⟨by
      intro p q hpq hqp
      unfold sortMultiSort at hpq hqp
      split_ifs at hpq hqp with h1 h2 h2 <;> simp at hpq hqp
      · exact Prod.ext h2 (by omega)
      · exact absurd h1.symm h2
      · exact absurd h2.symm h1
      · omega⟩
  have hsorted : ∀ out : List AccountStat,
      out.Pairwise (fun a b => accountLess sort b a = false) →
      (out.map (rankKey sort)).Sorted (fun p q => sortMultiSort q.1 p.1 q.2 p.2 = false) := by
    intro out hout
    refine List.pairwise_map.2 (hout.imp ?_)
    intro a b hab
    rw [accountLess_eq] at hab
    exact hab
  exact List.eq_of_perm_of_sorted ((h₁.1.trans (hp.trans h₂.1.symm)).map (rankKey sort))
    (hsorted out₁ h₁.2) (hsorted out₂ h₂.2)

/-- Counterexample to C12: accounts "A" and "B" are equal on subscriptions and
on connections. The table that received "A" first and the table that received
"B" first hold the same entries in two enumerations, and `redraw`, sorting by
subscriptions, shows "A" then "B" for the one and "B" then "A" for the other. -/
theorem redraw_order_counterexample :
    storeEqualAB.accounts.Perm storeEqualBA.accounts ∧
    (collectTotals storeEqualAB (10 * second)).1.Perm
      (collectTotals storeEqualBA (10 * second)).1 ∧
    (redraw storeEqualAB (10 * second)).toOption.map
      (fun frame => frame.rows.map (fun r => r.Account)) = some ["A", "B"] ∧
    (redraw storeEqualBA (10 * second)).toOption.map
      (fun frame => frame.rows.map (fun r => r.Account)) = some ["B", "A"] := by
  refine ⟨List.Perm.swap _ _ _, List.Perm.swap _ _ _, ?_, ?_⟩
  · decide
  · decide

/-- C12, amended: for every sort key and limit, ranking two enumerations
(permutations) of the same aggregated views yields two sequences that show at
every position the same value of the selected counter and the same connection
count; they are the same sequence whenever no two distinct views are equal on
both the selected counter and connections. -/
theorem rank_same_up_to_ties (sort : String) (xs ys : List AccountStat) (limit : Nat)
    (hp : xs.Perm ys) :
    ((sortSlice (accountLess sort) xs).take limit).map (rankKey sort) =
      ((sortSlice (accountLess sort) ys).take limit).map (rankKey sort) ∧
    ((∀ a ∈ xs, ∀ b ∈ xs, rankKey sort a = rankKey sort b → a = b) →
      (sortSlice (accountLess sort) xs).take limit =
        (sortSlice (accountLess sort) ys).take limit) := by
  have hx := accountLess_sortedBy sort xs
  have hy := accountLess_sortedBy sort ys
  have hkeys := sortedBy_rankKeys sort xs ys _ _ hp hx hy
  constructor
  · rw [List.map_take, List.map_take, hkeys]
  · intro hinj
    have heq : sortSlice (accountLess sort) xs = sortSlice (accountLess sort) ys := by
      apply map_eq_of_inj_on (rankKey sort) _ _ hkeys
      intro a ha b hb hab
      exact hinj a (hx.1.subset ha) b (hp.symm.subset (hy.1.subset hb)) hab
    rw [heq]

/-- Witness of C12, amended: accounts "A" (2 connections) and "B" (1
connection), both with 7 subscriptions, ranked by subscriptions with limit 1
from the enumeration "A", "B" and from the enumeration "B", "A". -/
theorem rank_same_up_to_ties_witness :
    ((sortSlice (accountLess "subs")
        [(sampleOf "A" "s1" 0 2 7).toAccountStat, (sampleOf "B" "s1" 0 1 7).toAccountStat]).take
        1).map (rankKey "subs") =
      ((sortSlice (accountLess "subs")
        [(sampleOf "B" "s1" 0 1 7).toAccountStat, (sampleOf "A" "s1" 0 2 7).toAccountStat]).take
        1).map (rankKey "subs") ∧
    (sortSlice (accountLess "subs")
        [(sampleOf "A" "s1" 0 2 7).toAccountStat, (sampleOf "B" "s1" 0 1 7).toAccountStat]).take 1 =
      (sortSlice (accountLess "subs")
        [(sampleOf "B" "s1" 0 1 7).toAccountStat, (sampleOf "A" "s1" 0 2 7).toAccountStat]).take 1 :=
  ⟨(rank_same_up_to_ties "subs"
      [(sampleOf "A" "s1" 0 2 7).toAccountStat, (sampleOf "B" "s1" 0 1 7).toAccountStat]
      [(sampleOf "B" "s1" 0 1 7).toAccountStat, (sampleOf "A" "s1" 0 2 7).toAccountStat] 1
      (List.Perm.swap _ _ _)).1,
    (rank_same_up_to_ties "subs"
      [(sampleOf "A" "s1" 0 2 7).toAccountStat, (sampleOf "B" "s1" 0 1 7).toAccountStat]
      [(sampleOf "B" "s1" 0 1 7).toAccountStat, (sampleOf "A" "s1" 0 2 7).toAccountStat] 1
      (List.Perm.swap _ _ _)).2 (by decide)⟩

/-! ## Theorems: the stand-down command and the empty leader -/

theorem reportsLeader_getJSI (r : Reply) (leader : String) (h : r.reportsLeader leader) :
    ∃ i, getJSI r = .ok i ∧ i.Meta.Leader = leader := by
  unfold Reply.reportsLeader at h
  cases hg : getJSI r with
  | error e => rw [hg] at h; exact False.elim h
  | ok i => rw [hg] at h; exact ⟨i, rfl, h⟩

/-- C21: when the helper, the encoding and the initial read succeed with a
non-empty leader and the stand-down command returns the error `e`, the action
returns `e` without waiting for a tick, having made three calls: the helper,
the initial read, and the stand-down command once. No `getJSI` call and no
second stand-down command follows. -/
theorem standDown_issue_error_is_final (c : SrvClusterCmd) (env : StandDownEnv)
    (leader e : String) (ticks : Nat)
    (hp : env.prepareHelper = .ok ()) (hm : env.marshal = .ok ())
    (hi : env.initial.reportsLeader leader) (hl : leader ≠ "")
    (hs : env.metaLeaderStandDown
      (if c.placementCluster ≠ "" then some c.placementCluster else none) = .error e) :
    metaLeaderStandDownAction c env ticks =
      some { result := .returned (some e),
             calls := [Call.prepareHelper, Call.getJSI,
               Call.metaLeaderStandDown
                 (if c.placementCluster ≠ "" then some c.placementCluster else none)],
             elapsedMs := 0 } := by
  obtain ⟨i, hg, hil⟩ := reportsLeader_getJSI env.initial leader hi
  subst hil
  simp only [ne_eq, ite_not] at hs
  simp [metaLeaderStandDownAction, hp, hm, hg, hl, hs]

/-- Witness of C21: the cluster refuses the stand-down command with "nats:
timeout". -/
theorem standDown_issue_error_is_final_witness :
    metaLeaderStandDownAction exampleCmd envIssueFails 10 =
      some { result := .returned (some "nats: timeout"),
             calls := [Call.prepareHelper, Call.getJSI,
               Call.metaLeaderStandDown
                 (if exampleCmd.placementCluster ≠ "" then some exampleCmd.placementCluster
                  else none)],
             elapsedMs := 0 } :=
  standDown_issue_error_is_final exampleCmd envIssueFails "S1" "nats: timeout" 10
    rfl rfl (by decide) (by decide) rfl

/-- C29: in the poll loop a successful poll that reports the empty leader
identity, the pre-operation leader being non-empty, ends the action in success
(exit status 0) like any other new leader; on the initial read the empty
leader identity makes the action return "cluster has no current leader" after
the helper and that read, with no stand-down command issued. -/
theorem standDown_empty_leader (c : SrvClusterCmd) (env : StandDownEnv) (ticks : Nat) :
    (∀ (leader : String) (k : Nat), env.startsPolling c leader → 1 ≤ k → k ≤ 5 →
      (∀ j, 1 ≤ j → j < k → ¬ (env.polls (j - 1)).reportsNewLeader leader) →
      (env.polls (k - 1)).reportsLeader "" → k ≤ ticks →
      (metaLeaderStandDownAction c env ticks).map (fun run => (run.result, run.calls)) =
        some (ActionResult.exited 0, callsBeforePolling c ++ List.replicate k Call.getJSI)) ∧
    (env.prepareHelper = .ok () → env.marshal = .ok () → env.initial.reportsLeader "" →
      metaLeaderStandDownAction c env ticks =
        some { result := .returned (some "cluster has no current leader"),
               calls := [Call.prepareHelper, Call.getJSI], elapsedMs := 0 }) := by
  constructor
  · intro leader k h hk1 hk5 hfirst hempty ht
    have hl : leader ≠ "" := h.2.2.2.1
    have hnew : (env.polls (k - 1)).reportsNewLeader leader := by
      unfold Reply.reportsLeader at hempty
      unfold Reply.reportsNewLeader
      cases hg : getJSI (env.polls (k - 1)) with
      | error e => rw [hg] at hempty; exact False.elim hempty
      | ok i =>
        rw [hg] at hempty
        have hi : i.Meta.Leader = "" := hempty
        show i.Meta.Leader ≠ leader
        rw [hi]
        exact fun h' => hl h'.symm
    obtain ⟨t, rfl⟩ : ∃ t, ticks = (k - 1) + (t + 1) := ⟨ticks - k, by omega⟩
    have hnot : ∀ j < k - 1, ¬ (env.polls j).reportsNewLeader leader := by
      intro j hj
      have := hfirst (j + 1) (by omega) (by omega)
      rw [Nat.add_sub_cancel] at this
      exact this
    rw [standDown_enters_loop c env leader h,
      pollLoop_converges leader (k - 1) t env.polls (by omega) hnot hnew]
    have hk : k - 1 + 1 = k := by omega
    simp [hk]
  · intro hp hm hi
    obtain ⟨i, hg, hil⟩ := reportsLeader_getJSI env.initial "" hi
    simp [metaLeaderStandDownAction, hp, hm, hg, hil]

/-- Witness of C29: one cluster reports no leader at its first poll, another
reports no leader on the initial read. -/
theorem standDown_empty_leader_witness :
    (metaLeaderStandDownAction exampleCmd envLeaderlessAfter 1).map
        (fun run => (run.result, run.calls)) =
      some (ActionResult.exited 0,
        callsBeforePolling exampleCmd ++ List.replicate 1 Call.getJSI) ∧
    metaLeaderStandDownAction exampleCmd envLeaderlessBefore 1 =
      some { result := .returned (some "cluster has no current leader"),
             calls := [Call.prepareHelper, Call.getJSI], elapsedMs := 0 } :=
  ⟨(standDown_empty_leader exampleCmd envLeaderlessAfter 1).1 "S1" 1
      ⟨rfl, rfl, by decide, by decide, rfl⟩ (by decide) (by decide)
      (fun j h1 h2 => absurd h1 (by omega)) (by decide) (by decide),
    (standDown_empty_leader exampleCmd envLeaderlessBefore 1).2 rfl rfl (by decide)⟩

/-! ## Theorems: several matching replicas -/

theorem findReplica_cons (peer : String) (r : PeerInfo) (rs : List PeerInfo) (st : Found) :
    findReplica peer (r :: rs) st =
      if r.Name = peer ∨ r.Peer = peer then
        if !r.Offline then .error "can only remove offline nodes"
        else findReplica peer rs { found := true, foundName := r.Name, foundID := r.Peer }
      else findReplica peer rs st := rfl

theorem findReplica_append (peer : String) (l₁ l₂ : List PeerInfo) (st : Found) :
    findReplica peer (l₁ ++ l₂) st =
      match findReplica peer l₁ st with
      | .error e => .error e
      | .ok st₁ => findReplica peer l₂ st₁ := by
  induction l₁ generalizing st with
  | nil => rfl
  | cons x xs ih =>
    rw [List.cons_append, findReplica_cons, findReplica_cons]
    split
    · split
      · rfl
      · exact ih _
    · exact ih _

theorem findReplica_all_offline (peer : String) (l : List PeerInfo) (st : Found)
    (h : ∀ q ∈ l, q.matchesTarget peer → q.Offline = true) :
    ∃ st₁, findReplica peer l st = .ok st₁ := by
  cases hf : findReplica peer l st with
  | ok st₁ => exact ⟨st₁, rfl⟩
  | error e =>
    obtain ⟨_, q, hq, hqm, hqo⟩ := findReplica_error peer l st e hf
    rw [h q hq hqm] at hqo
    cases hqo

theorem validatePeer_of_all_offline (peer : String) (pre post : List PeerInfo) (r : PeerInfo)
    (hm : r.matchesTarget peer) (hpost : ∀ q ∈ post, ¬ q.matchesTarget peer)
    (hall : ∀ q ∈ pre ++ r :: post, q.matchesTarget peer → q.Offline = true) :
    validatePeer peer (pre ++ r :: post) = .ok (r.Name, r.Peer) := by
  have hpre : ∀ q ∈ pre, q.matchesTarget peer → q.Offline = true :=
    fun q hq => hall q (List.mem_append_left _ hq)
  have hr : r.Offline = true :=
    hall r (List.mem_append_right _ (List.mem_cons_self _ _)) hm
  obtain ⟨st₁, hst₁⟩ := findReplica_all_offline peer pre
    { found := false, foundName := "", foundID := "" } hpre
  have hm' : r.Name = peer ∨ r.Peer = peer := hm
  have htail : findReplica peer (r :: post) st₁ =
      .ok { found := true, foundName := r.Name, foundID := r.Peer } := by
    simp only [findReplica, hm', hr, if_true, Bool.not_true, Bool.false_eq_true, if_false]
    exact findReplica_no_match peer post _ hpost
  simp [validatePeer, findReplica_append, hst₁, htail]

/-- C28: when the snapshot holds a replica `r` matching the target (by name or
by identifier) with no matching replica after it, whatever matching replicas
stand before it, the validation succeeds exactly when every matching replica
of the snapshot is offline, and the pair it then yields is the name and the
identifier of `r`, the last matching replica. -/
theorem validatePeer_last_match (peer : String) (pre post : List PeerInfo) (r : PeerInfo)
    (hm : r.Name = peer ∨ r.Peer = peer)
    (hpost : ∀ q ∈ post, ¬ (q.Name = peer ∨ q.Peer = peer)) :
    ((∃ pair, validatePeer peer (pre ++ r :: post) = .ok pair) ↔
      ∀ q ∈ pre ++ r :: post, (q.Name = peer ∨ q.Peer = peer) → q.Offline = true) ∧
    ∀ pair, validatePeer peer (pre ++ r :: post) = .ok pair → pair = (r.Name, r.Peer) := by
  have hforward : ∀ pair, validatePeer peer (pre ++ r :: post) = .ok pair →
      ∀ q ∈ pre ++ r :: post, (q.Name = peer ∨ q.Peer = peer) → q.Offline = true := by
    intro pair h
    unfold validatePeer at h
    cases hf : findReplica peer (pre ++ r :: post)
        { found := false, foundName := "", foundID := "" } with
    | error e => rw [hf] at h; cases h
    | ok st' => exact (findReplica_ok peer _ _ st' hf).1
  refine ⟨⟨fun ⟨pair, h⟩ => hforward pair h, fun hall => ?_⟩, fun pair h => ?_⟩
  · exact ⟨_, validatePeer_of_all_offline peer pre post r hm hpost hall⟩
  · have h' := validatePeer_of_all_offline peer pre post r hm hpost (hforward pair h)
    rw [h'] at h
    cases h
    rfl

/-- Witness of C28: the target "n1" matches the first replica by name and the
third by identifier, both offline; the pair yielded is that of the third. -/
theorem validatePeer_last_match_witness :
    ((∃ pair, validatePeer "n1" ([⟨"n1", "idA", true⟩, ⟨"n2", "idB", false⟩] ++
        ⟨"n3", "n1", true⟩ :: []) = .ok pair) ↔
      ∀ q ∈ [⟨"n1", "idA", true⟩, ⟨"n2", "idB", false⟩] ++ (⟨"n3", "n1", true⟩ : PeerInfo) :: [],
        (q.Name = "n1" ∨ q.Peer = "n1") → q.Offline = true) ∧
    ∀ pair, validatePeer "n1" ([⟨"n1", "idA", true⟩, ⟨"n2", "idB", false⟩] ++
        ⟨"n3", "n1", true⟩ :: []) = .ok pair → pair = ("n3", "n1") :=
  validatePeer_last_match "n1" [⟨"n1", "idA", true⟩, ⟨"n2", "idB", false⟩] []
    ⟨"n3", "n1", true⟩ (by decide) (by decide)

/-! ## Theorems: the comparison function -/

/-- C27: for every sort key the comparison function of `redraw` is a strict
weak ordering of aggregated accounts: no account is less than itself, less is
transitive, and being neither less nor greater is transitive. -/
theorem accountLess_strict_weak_order (sort : String) :
    (∀ a, accountLess sort a a = false) ∧
    (∀ a b c, accountLess sort a b = true → accountLess sort b c = true →
      accountLess sort a c = true) ∧
    (∀ a b c, (accountLess sort a b = false ∧ accountLess sort b a = false) →
      (accountLess sort b c = false ∧ accountLess sort c b = false) →
      (accountLess sort a c = false ∧ accountLess sort c a = false)) := by
  refine ⟨?_, ?_, ?_⟩
  · intro a
    rw [accountLess_eq]
    simp [sortMultiSort]
  · intro a b c hab hbc
    rw [accountLess_eq] at hab hbc ⊢
    unfold sortMultiSort at hab hbc ⊢
    split_ifs at hab hbc ⊢ <;> simp at hab hbc ⊢ <;> omega
  · intro a b c hab hbc
    exact ⟨accountLess_neg_trans sort a b c hab.1 hbc.1,
      accountLess_neg_trans sort c b a hbc.2 hab.2⟩

theorem string_a_lt_b : ("a" : String) < "b" := by
  rw [String.lt_iff_toList_lt]
  decide

theorem string_b_not_lt_a : ¬ ("b" : String) < "a" := by
  rw [String.lt_iff_toList_lt]
  decide

/-- C23: `sortMultiSort i1 j1 i2 j2` is true when `i1 > j1`, false when
`i1 < j1`, and for `i1 = j1` true exactly when `i2 < j2`; on the four inputs of
`TestMultipleSort` it gives false, true, false and true. -/
theorem sortMultiSort_spec {α β : Type} [LinearOrder α] [LinearOrder β]
    (i1 j1 : α) (i2 j2 : β) :
    (j1 < i1 → sortMultiSort i1 j1 i2 j2 = true) ∧
    (i1 < j1 → sortMultiSort i1 j1 i2 j2 = false) ∧
    (i1 = j1 → (sortMultiSort i1 j1 i2 j2 = true ↔ i2 < j2)) ∧
    sortMultiSort (1 : Int) 1 "b" "a" = false ∧
    sortMultiSort (1 : Int) 1 "a" "b" = true ∧
    sortMultiSort (1 : Int) 2 "a" "b" = false ∧
    sortMultiSort (2 : Int) 1 "a" "b" = true := by
  refine ⟨?_, ?_, ?_, ?_, ?_, ?_, ?_⟩
  · intro h
    have hne : ¬ i1 = j1 := fun he => by rw [he] at h; exact lt_irrefl _ h
    simp [sortMultiSort, hne, h]
  · intro h
    have hne : ¬ i1 = j1 := fun he => by rw [he] at h; exact lt_irrefl _ h
    simp [sortMultiSort, hne, not_lt.2 (le_of_lt h)]
  · intro h
    simp [sortMultiSort, h]
  · unfold sortMultiSort
    rw [if_pos rfl]
    exact decide_eq_false string_b_not_lt_a
  · unfold sortMultiSort
    rw [if_pos rfl]
    exact decide_eq_true string_a_lt_b
  · unfold sortMultiSort
    rw [if_neg (by decide)]
    decide
  · unfold sortMultiSort
    rw [if_neg (by decide)]
    decide

/-! ## Theorems: `accountsAction`, the table and the lock -/

/-- C22: when `terminal.GetSize` returns an error and the configured limit is
0, `accountsAction` returns the error "could not determine screen dimensions"
having done nothing but ask for the size: no helper (connection), no
subscription, no redraw. -/
theorem accountsAction_without_size (c : SrvWatchAccountCmd) (env : WatchEnv) (e : String)
    (herr : env.sizeErr = some e) (h0 : c.topCount = 0) :
    accountsAction c env =
      { result := some (.returned (some ("could not determine screen dimensions: " ++ e))),
        effects := [.getSize], store := c } := by
  simp [accountsAction, effectiveTopCount, herr, h0]

/-- Witness of C22: no terminal and no `--number`. -/
theorem accountsAction_without_size_witness :
    accountsAction (newWatchCmd "conns" 0) envNoTerminal =
      { result := some (.returned
          (some ("could not determine screen dimensions: " ++ "inappropriate ioctl for device"))),
        effects := [.getSize], store := newWatchCmd "conns" 0 } :=
  accountsAction_without_size (newWatchCmd "conns" 0) envNoTerminal
    "inappropriate ioctl for device" rfl rfl

theorem handle_topCount (c : SrvWatchAccountCmd) (msg : Payload) (t : Int) :
    (handle c msg t).topCount = c.topCount := by
  cases msg <;> rfl

theorem watchLoop_ticks_store (nows : List Int) :
    ∀ (c : SrvWatchAccountCmd) (effects : List Effect),
      (watchLoop (nows.map WatchEvent.tick) c effects).store = c := by
  induction nows with
  | nil => intro c effects; rfl
  | cons now rest ih =>
    intro c effects
    simp only [List.map_cons, watchLoop]
    split
    · exact ih c _
    · rfl

theorem watchLoop_drop_ticks (events : List WatchEvent) :
    ∀ (c : SrvWatchAccountCmd) (effects effects' : List Effect), 0 ≤ c.topCount →
      (watchLoop events c effects).store =
        (watchLoop (events.filter (fun e => !e.isTick)) c effects').store := by
  induction events with
  | nil => intro c effects effects' _; rfl
  | cons ev rest ih =>
    intro c effects effects' h0
    cases ev with
    | message msg now =>
      simp only [List.filter_cons, WatchEvent.isTick, Bool.not_false, if_true, watchLoop]
      exact ih _ _ _ (by rw [handle_topCount]; exact h0)
    | tick now =>
      obtain ⟨frame, hred, _⟩ := redraw_of_nonneg c now h0
      simp only [List.filter_cons, WatchEvent.isTick, Bool.not_true, Bool.false_eq_true,
        if_false, watchLoop, hred]
      exact ih _ _ _ h0
    | cancel =>
      simp only [List.filter_cons, WatchEvent.isTick, Bool.not_false, if_true, watchLoop]

/-- C24: a redraw leaves the receiver, and with it the whole sample table, as
it was: after any number of ticks the table is the table before them, stale
samples and accounts with only stale samples included; and a run of ticks and
messages leaves the table that the same run without its ticks leaves (the
limit not being negative, so that no redraw panics). `accountTotal` only reads
the table and returns no table. -/
theorem redraw_leaves_table (c : SrvWatchAccountCmd) :
    (∀ (nows : List Int) (effects : List Effect),
      (watchLoop (nows.map WatchEvent.tick) c effects).store = c) ∧
    (0 ≤ c.topCount → ∀ (events : List WatchEvent) (effects : List Effect),
      (watchLoop events c effects).store =
        (watchLoop (events.filter (fun e => !e.isTick)) c effects).store) :=
  ⟨fun nows effects => watchLoop_ticks_store nows c effects,
    fun h0 events effects => watchLoop_drop_ticks events c effects effects h0⟩

/-- Witness of C24: the only sample of `storeOneSample` is stale at 36 s; two
ticks and a message of another account leave the table that the message alone
leaves, with the stale sample still at ("A", "s1"). -/
theorem redraw_leaves_table_witness :
    (watchLoop eventsTicksAndMessage storeOneSample []).store =
      (watchLoop (eventsTicksAndMessage.filter (fun e => !e.isTick)) storeOneSample []).store ∧
    sampleAt (watchLoop eventsTicksAndMessage storeOneSample []).store "A" "s1" =
      some (sampleOf "A" "s1" 0 2 7) :=
  ⟨(redraw_leaves_table storeOneSample).2 (by decide) eventsTicksAndMessage [], by rfl⟩

theorem lockHeld_after_lock (m : List Effect)
    (hm : ∀ x ∈ m, x ≠ Effect.lock ∧ x ≠ Effect.unlock) :
    lockHeld (Effect.lock :: m) = true := by
  have h1 : m.count Effect.unlock = 0 :=
    List.count_eq_zero_of_not_mem (fun hx => (hm _ hx).2 rfl)
  have h2 : m.count Effect.lock = 0 :=
    List.count_eq_zero_of_not_mem (fun hx => (hm _ hx).1 rfl)
  simp [lockHeld, List.count_cons, h1, h2]

theorem under_lock_of_bracket (body : List Effect)
    (hb : ∀ x ∈ body, x ≠ Effect.lock ∧ x ≠ Effect.unlock) (e : Effect) (he : e ∈ body) :
    happensUnderLock e (Effect.lock :: body ++ [Effect.unlock]) := by
  obtain ⟨m₁, m₂, rfl⟩ := List.append_of_mem he
  refine ⟨Effect.lock :: m₁, m₂ ++ [Effect.unlock], by simp, ?_⟩
  exact lockHeld_after_lock m₁ (fun x hx => hb x (List.mem_append_left _ hx))

theorem redrawBody_no_lock (c : SrvWatchAccountCmd) (now : Int) :
    ∀ x ∈ redrawBody c now, x ≠ Effect.lock ∧ x ≠ Effect.unlock := by
  intro x hx
  unfold redrawBody at hx
  rcases List.mem_append.1 hx with h | h
  · rcases List.mem_append.1 h with h' | h'
    · obtain ⟨entry, _, rfl⟩ := List.mem_map.1 h'
      exact ⟨by simp, by simp⟩
    · rw [List.mem_singleton] at h'
      subst h'
      exact ⟨by simp, by simp⟩
  · split at h
    · simp only [List.mem_cons, List.mem_singleton, List.not_mem_nil, or_false] at h
      rcases h with rfl | rfl | rfl <;> exact ⟨by simp, by simp⟩
    · cases h

theorem redrawBody_ok (c : SrvWatchAccountCmd) (now : Int) (frame : Frame)
    (h : redraw c now = .ok frame) :
    redrawBody c now =
      c.accounts.map (fun entry => Effect.accountTotal entry.1) ++
        [Effect.sortSlice, Effect.clearScreen, Effect.render frame, Effect.println frame] := by
  simp [redrawBody, h]

/-- Counterexample to C25: in a redraw of `storeOneSample` the mutex is taken
first and given back last; the screen is cleared, the table rendered and
printed after `c.mu.Lock()` and before the deferred `c.mu.Unlock()`, that is
while the mutex is held. -/
theorem redraw_prints_under_lock_counterexample :
    ∃ frame,
      redrawEffects storeOneSample (10 * second) =
        [.lock, .accountTotal "A", .sortSlice, .clearScreen, .render frame, .println frame,
          .unlock] ∧
      happensUnderLock .clearScreen (redrawEffects storeOneSample (10 * second)) ∧
      happensUnderLock (.render frame) (redrawEffects storeOneSample (10 * second)) ∧
      happensUnderLock (.println frame) (redrawEffects storeOneSample (10 * second)) := by
  obtain ⟨frame, hred, _⟩ := redraw_of_nonneg storeOneSample (10 * second) (by decide)
  have hbody := redrawBody_ok storeOneSample (10 * second) frame hred
  have hmem : ∀ e, e ∈ [Effect.clearScreen, Effect.render frame, Effect.println frame] →
      e ∈ redrawBody storeOneSample (10 * second) := by
    intro e he
    rw [hbody]
    refine List.mem_append_right _ ?_
    simp only [List.mem_cons, List.mem_singleton, List.not_mem_nil, or_false] at he ⊢
    exact Or.inr he
  refine ⟨frame, ?_, ?_, ?_, ?_⟩
  · unfold redrawEffects
    rw [hbody]
    rfl
  · exact under_lock_of_bracket _ (redrawBody_no_lock _ _) _ (hmem _ (by simp))
  · exact under_lock_of_bracket _ (redrawBody_no_lock _ _) _ (hmem _ (by simp))
  · exact under_lock_of_bracket _ (redrawBody_no_lock _ _) _ (hmem _ (by simp))

/-- C25, amended: in `redraw` the mutex is taken on entry and given back by
the deferred unlock on the way out, so that the critical section is the whole
body: everything `redraw` does other than taking and giving back the mutex it
does while the mutex is held, and when it builds the frame `frame` that is, in
this order, the reading of the table by `accountTotal` for every account, the
sort, the clearing of the screen, the rendering of the table and the
printing. -/
theorem redraw_holds_lock_throughout (c : SrvWatchAccountCmd) (now : Int) (frame : Frame)
    (h : redraw c now = .ok frame) :
    redrawEffects c now =
      Effect.lock :: (c.accounts.map (fun entry => Effect.accountTotal entry.1) ++
        [Effect.sortSlice, Effect.clearScreen, Effect.render frame, Effect.println frame]) ++
        [Effect.unlock] ∧
    (∀ e ∈ redrawEffects c now, e ≠ Effect.lock → e ≠ Effect.unlock →
      happensUnderLock e (redrawEffects c now)) ∧
    (∀ entry ∈ c.accounts, happensUnderLock (.accountTotal entry.1) (redrawEffects c now)) ∧
    happensUnderLock .sortSlice (redrawEffects c now) ∧
    happensUnderLock .clearScreen (redrawEffects c now) ∧
    happensUnderLock (.render frame) (redrawEffects c now) ∧
    happensUnderLock (.println frame) (redrawEffects c now) := by
  have hbody := redrawBody_ok c now frame h
  have hno := redrawBody_no_lock c now
  have hall : ∀ e ∈ redrawBody c now, happensUnderLock e (redrawEffects c now) :=
    fun e he => under_lock_of_bracket _ hno e he
  have htail : ∀ e, e ∈ [Effect.sortSlice, Effect.clearScreen, Effect.render frame,
      Effect.println frame] → e ∈ redrawBody c now := by
    intro e he
    rw [hbody]
    exact List.mem_append_right _ he
  refine ⟨?_, ?_, ?_, ?_, ?_, ?_, ?_⟩
  · unfold redrawEffects
    rw [hbody]
  · intro e he hl hu
    unfold redrawEffects at he
    rcases List.mem_cons.1 he with h1 | h1
    · exact absurd h1 hl
    · rcases List.mem_append.1 h1 with h2 | h2
      · exact hall e h2
      · rw [List.mem_singleton] at h2
        exact absurd h2 hu
  · intro entry hentry
    apply hall
    rw [hbody]
    exact List.mem_append_left _ (List.mem_map.2 ⟨entry, hentry, rfl⟩)
  · exact hall _ (htail _ (by simp))
  · exact hall _ (htail _ (by simp))
  · exact hall _ (htail _ (by simp))
  · exact hall _ (htail _ (by simp))

/-- Witness of C25, amended: the redraw of `storeTiedOnSubs` that builds
`frameTiedOnSubs` reads the totals of "A" and "B", sorts, clears the screen,
renders and prints, all between the lock and the unlock. -/
theorem redraw_holds_lock_throughout_witness :
    redrawEffects storeTiedOnSubs (10 * second) =
      [.lock, .accountTotal "A", .accountTotal "B", .sortSlice, .clearScreen,
        .render frameTiedOnSubs, .println frameTiedOnSubs, .unlock] ∧
    happensUnderLock (.accountTotal "A") (redrawEffects storeTiedOnSubs (10 * second)) ∧
    happensUnderLock .sortSlice (redrawEffects storeTiedOnSubs (10 * second)) ∧
    happensUnderLock (.render frameTiedOnSubs) (redrawEffects storeTiedOnSubs (10 * second)) ∧
    happensUnderLock (.println frameTiedOnSubs) (redrawEffects storeTiedOnSubs (10 * second)) := by
  have h := redraw_holds_lock_throughout storeTiedOnSubs (10 * second) frameTiedOnSubs (by rfl)
  refine ⟨?_, h.2.1 _ ?_ (by simp) (by simp), h.2.2.2.1, h.2.2.2.2.2.1, h.2.2.2.2.2.2⟩
  · rw [h.1]
    rfl
  · rw [h.1]
    decide

/-! ## Theorems: the digest of `showObjectInfo` -/

/-- C30, the code at the failing input: for the digest of an object with no
content, whose base64 payload ends in the padding character '=', the string
handed to the decoder is the payload without its padding, while what follows
the first '=' of the digest is the payload with it. -/
theorem decoderInput_loses_padding :
    decoderInput digestOfEmptyObject = some "47DEQpj8HBSa-_TImW-5JCeuQeRkm5NMpJWZG3hSuFU" ∧
    afterFirstEq digestOfEmptyObject = some "47DEQpj8HBSa-_TImW-5JCeuQeRkm5NMpJWZG3hSuFU=" ∧
    decoderInput digestOfEmptyObject ≠ afterFirstEq digestOfEmptyObject := by
  decide

end NatsCli
